import Mathlib

/-!
# Verification of the Codex JSONL log parser

This file is a shallow embedding of `parsecodexlog.py` (module
`parsecodexlog`): a line-oriented parser that turns a Codex CLI JSONL log
into an ordered list of `ParsedMessage` records, correlating
`function_call` / `function_call_output` response items via `call_id`.

Modelling conventions:
* Python values flowing through the parser all originate from `json.loads`,
  so they are modelled by the inductive type `Json` below.  Python `None`
  and JSON `null` are the same value (`Json.null`).
* JSON numbers are modelled as integers (`Int`).  Payloads containing
  non-integer numbers are outside the model.
* Fallible Python code is modelled in `Option`: `none` stands for an
  uncaught Python exception (`AttributeError` / `TypeError`), which aborts
  `parse_codex_log`.  The one caught exception, `json.JSONDecodeError`,
  is the `none` result of `jsonLoads` and is handled at its call sites
  exactly as in the source.
* Python's in-place mutation of a pending call message (the alias stored
  in `pending_calls`) is modelled by storing the message's index in the
  `messages` list and updating that index.
-/

/-- JSON values (numbers restricted to integers); doubles as the model of
the Python values manipulated by the parser, with `null` = Python `None`. -/
inductive Json where
  | null : Json
  | bool : Bool → Json
  | num : Int → Json
  | str : String → Json
  | arr : List Json → Json
  | obj : List (String × Json) → Json

mutual
/-- Decidable equality of JSON values. -/
def decEqJson : (a b : Json) → Decidable (a = b)
  | .null, .null => isTrue rfl
  | .null, .bool _ => isFalse nofun
  | .null, .num _ => isFalse nofun
  | .null, .str _ => isFalse nofun
  | .null, .arr _ => isFalse nofun
  | .null, .obj _ => isFalse nofun
  | .bool _, .null => isFalse nofun
  | .bool a, .bool b =>
    if h : a = b then isTrue (by rw [h]) else isFalse (fun hh => by cases hh; exact h rfl)
  | .bool _, .num _ => isFalse nofun
  | .bool _, .str _ => isFalse nofun
  | .bool _, .arr _ => isFalse nofun
  | .bool _, .obj _ => isFalse nofun
  | .num _, .null => isFalse nofun
  | .num _, .bool _ => isFalse nofun
  | .num a, .num b =>
    if h : a = b then isTrue (by rw [h]) else isFalse (fun hh => by cases hh; exact h rfl)
  | .num _, .str _ => isFalse nofun
  | .num _, .arr _ => isFalse nofun
  | .num _, .obj _ => isFalse nofun
  | .str _, .null => isFalse nofun
  | .str _, .bool _ => isFalse nofun
  | .str _, .num _ => isFalse nofun
  | .str a, .str b =>
    if h : a = b then isTrue (by rw [h]) else isFalse (fun hh => by cases hh; exact h rfl)
  | .str _, .arr _ => isFalse nofun
  | .str _, .obj _ => isFalse nofun
  | .arr _, .null => isFalse nofun
  | .arr _, .bool _ => isFalse nofun
  | .arr _, .num _ => isFalse nofun
  | .arr _, .str _ => isFalse nofun
  | .arr xs, .arr ys =>
    match decEqJsonList xs ys with
    | isTrue h => isTrue (by rw [h])
    | isFalse h => isFalse (fun hh => by cases hh; exact h rfl)
  | .arr _, .obj _ => isFalse nofun
  | .obj _, .null => isFalse nofun
  | .obj _, .bool _ => isFalse nofun
  | .obj _, .num _ => isFalse nofun
  | .obj _, .str _ => isFalse nofun
  | .obj _, .arr _ => isFalse nofun
  | .obj fs, .obj gs =>
    match decEqJsonFields fs gs with
    | isTrue h => isTrue (by rw [h])
    | isFalse h => isFalse (fun hh => by cases hh; exact h rfl)

/-- Decidable equality of JSON value lists. -/
def decEqJsonList : (xs ys : List Json) → Decidable (xs = ys)
  | [], [] => isTrue rfl
  | [], _ :: _ => isFalse nofun
  | _ :: _, [] => isFalse nofun
  | x :: xs, y :: ys =>
    match decEqJson x y, decEqJsonList xs ys with
    | isTrue h1, isTrue h2 => isTrue (by rw [h1, h2])
    | isFalse h1, _ => isFalse (fun hh => by cases hh; exact h1 rfl)
    | _, isFalse h2 => isFalse (fun hh => by cases hh; exact h2 rfl)

/-- Decidable equality of JSON object field lists. -/
def decEqJsonFields : (fs gs : List (String × Json)) → Decidable (fs = gs)
  | [], [] => isTrue rfl
  | [], _ :: _ => isFalse nofun
  | _ :: _, [] => isFalse nofun
  | (k, v) :: fs, (l, w) :: gs =>
    if hk : k = l then
      match decEqJson v w, decEqJsonFields fs gs with
      | isTrue h1, isTrue h2 => isTrue (by rw [hk, h1, h2])
      | isFalse h1, _ => isFalse (fun hh => by cases hh; exact h1 rfl)
      | _, isFalse h2 => isFalse (fun hh => by cases hh; exact h2 rfl)
    else isFalse (fun hh => by cases hh; exact hk rfl)
end

instance : DecidableEq Json := decEqJson

/-- Python truthiness of a JSON value (`if value:`). -/
def truthy : Json → Bool
  | .null => false
  | .bool b => b
  | .num n => n != 0
  | .str s => s != ""
  | .arr xs => !xs.isEmpty
  | .obj fs => !fs.isEmpty

/-- Whether the value may be used as a Python `dict` key (hashable);
lists and dicts raise `TypeError` when used as keys. -/
def hashable : Json → Bool
  | .arr _ => false
  | .obj _ => false
  | _ => true

/-- `d.get(key)` on the field list of a JSON object (keys are unique, so
first match suffices). -/
def dictGet : List (String × Json) → String → Option Json
  | [], _ => none
  | (k, v) :: rest, key => if k = key then some v else dictGet rest key

/-- `d[key] = v` on a Python dict represented as an association list:
update in place if the key exists, else append. -/
def dictInsert : List (String × Json) → String → Json → List (String × Json)
  | [], key, v => [(key, v)]
  | (k, w) :: rest, key, v =>
    if k = key then (k, v) :: rest else (k, w) :: dictInsert rest key v

/-- `record.get(k)` with Python `None` (= `Json.null`) for a missing key. -/
def getField (fs : List (String × Json)) (k : String) : Json :=
  (dictGet fs k).getD .null

/-- left brace character (written via its code point). -/
def lbraceC : Char := Char.ofNat 123

/-- right brace character. -/
def rbraceC : Char := Char.ofNat 125

/-- single-quote character. -/
def squoteC : Char := Char.ofNat 39

/-- Decimal digit character for a digit value. -/
def digitChar (d : Nat) : Char := Char.ofNat (48 + d)

/-- Big-endian decimal digits of a positive natural (fuelled; `fuel ≥ m`
suffices). -/
def natReprAux : Nat → Nat → List Char
  | 0, _ => []
  | _ + 1, 0 => []
  | fuel + 1, m => natReprAux fuel (m / 10) ++ [digitChar (m % 10)]

/-- Decimal rendering of a natural number (no sign, no leading zeros). -/
def natRepr (m : Nat) : List Char :=
  if m = 0 then ['0'] else natReprAux m m

/-- Decimal rendering of an integer, as Python `str`/`repr` renders `int`. -/
def intRepr (n : Int) : List Char :=
  if n < 0 then '-' :: natRepr n.natAbs else natRepr n.natAbs

/-- Python `repr` of a string: single-quoted with backslash escapes.
Approximation of CPython: always single-quotes, escapes backslash, the
quote, and control characters (`\n`, `\r`, `\t` short forms, `\xHH`
otherwise); printable characters pass through. -/
def pyStrReprChar (c : Char) : List Char :=
  if c = '\\' then ['\\', '\\']
  else if c = squoteC then ['\\', squoteC]
  else if c = '\n' then ['\\', 'n']
  else if c = '\r' then ['\\', 'r']
  else if c = '\t' then ['\\', 't']
  else if c.toNat < 32 ∨ c.toNat = 127 then
    ['\\', 'x', Nat.digitChar (c.toNat / 16), Nat.digitChar (c.toNat % 16)]
  else [c]

/-- Python `repr` of a string (see `pyStrReprChar`). -/
def pyStrRepr (s : String) : List Char :=
  squoteC :: (s.data.flatMap pyStrReprChar) ++ [squoteC]

mutual
/-- Python `repr` of a JSON value (used inside containers by `str`). -/
def pyRepr : Json → List Char
  | .null => ['N', 'o', 'n', 'e']
  | .bool true => ['T', 'r', 'u', 'e']
  | .bool false => ['F', 'a', 'l', 's', 'e']
  | .num n => intRepr n
  | .str s => pyStrRepr s
  | .arr xs => '[' :: pyReprItems xs ++ [']']
  | .obj fs => lbraceC :: pyReprFields fs ++ [rbraceC]

/-- comma-joined `repr`s of list items. -/
def pyReprItems : List Json → List Char
  | [] => []
  | [x] => pyRepr x
  | x :: y :: ys => pyRepr x ++ ',' :: ' ' :: pyReprItems (y :: ys)

/-- comma-joined `repr`s of dict entries. -/
def pyReprFields : List (String × Json) → List Char
  | [] => []
  | [(k, v)] => pyStrRepr k ++ ':' :: ' ' :: pyRepr v
  | (k, v) :: f :: fs => pyStrRepr k ++ ':' :: ' ' :: pyRepr v ++ ',' :: ' ' :: pyReprFields (f :: fs)
end

/-- Python `str()` of a JSON value (strings pass through verbatim,
containers render via `repr`). -/
def pyStr : Json → String
  | .str s => s
  | .null => "None"
  | .bool true => "True"
  | .bool false => "False"
  | .num n => String.mk (intRepr n)
  | .arr xs => String.mk (pyRepr (.arr xs))
  | .obj fs => String.mk (pyRepr (.obj fs))

/-- Whitespace stripped by Python `str.strip()` (ASCII part). -/
def pyWs (c : Char) : Bool :=
  c = ' ' ∨ c = '\t' ∨ c = '\n' ∨ c = '\r' ∨ c = Char.ofNat 11 ∨ c = Char.ofNat 12

/-- Python `line.strip()` (ASCII whitespace). -/
def pyStrip (s : String) : String :=
  String.mk (((s.data.dropWhile pyWs).reverse.dropWhile pyWs).reverse)

/-! ## `json.dumps(value, ensure_ascii=False, indent=2)` -/

/-- JSON string escaping of one character as `json.dumps` performs it with
`ensure_ascii=False`: short escapes for `"`, `\`, `\b`, `\t`, `\n`, `\f`,
`\r`; `\u00XX` for the remaining control characters; everything else
(including non-ASCII) passes through. -/
def jsonEscapeChar (c : Char) : List Char :=
  if c = '"' then ['\\', '"']
  else if c = '\\' then ['\\', '\\']
  else if c = '\n' then ['\\', 'n']
  else if c = '\t' then ['\\', 't']
  else if c = '\r' then ['\\', 'r']
  else if c = Char.ofNat 8 then ['\\', 'b']
  else if c = Char.ofNat 12 then ['\\', 'f']
  else if c.toNat < 32 then
    ['\\', 'u', '0', '0', Nat.digitChar (c.toNat / 16), Nat.digitChar (c.toNat % 16)]
  else [c]

/-- A double-quoted, escaped JSON string literal. -/
def jsonQuote (s : String) : List Char :=
  '"' :: s.data.flatMap jsonEscapeChar ++ ['"']

/-- `2 * level` spaces of indentation. -/
def indentChars (level : Nat) : List Char :=
  List.replicate (2 * level) ' '

mutual
/-- Rendering of a JSON value by `json.dumps(value, ensure_ascii=False,
indent=2)`, at a given indentation level. -/
def dumpChars : Json → Nat → List Char
  | .null, _ => ['n', 'u', 'l', 'l']
  | .bool true, _ => ['t', 'r', 'u', 'e']
  | .bool false, _ => ['f', 'a', 'l', 's', 'e']
  | .num n, _ => intRepr n
  | .str s, _ => jsonQuote s
  | .arr [], _ => ['[', ']']
  | .arr (x :: xs), level =>
    '[' :: '\n' :: dumpItems (x :: xs) (level + 1) ++
      '\n' :: indentChars level ++ [']']
  | .obj [], _ => [lbraceC, rbraceC]
  | .obj (f :: fs), level =>
    lbraceC :: '\n' :: dumpFields (f :: fs) (level + 1) ++
      '\n' :: indentChars level ++ [rbraceC]

/-- The `",\n"-joined, indented renderings of array items. -/
def dumpItems : List Json → Nat → List Char
  | [], _ => []
  | [x], level => indentChars level ++ dumpChars x level
  | x :: y :: ys, level =>
    indentChars level ++ dumpChars x level ++ ',' :: '\n' :: dumpItems (y :: ys) level

/-- The `",\n"-joined, indented renderings of object entries. -/
def dumpFields : List (String × Json) → Nat → List Char
  | [], _ => []
  | [(k, v)], level => indentChars level ++ jsonQuote k ++ ':' :: ' ' :: dumpChars v level
  | (k, v) :: g :: gs, level =>
    indentChars level ++ jsonQuote k ++ ':' :: ' ' :: dumpChars v level ++
      ',' :: '\n' :: dumpFields (g :: gs) level
end

/-- `_format_json(value)`: `"null"` for `None`, otherwise
`json.dumps(value, ensure_ascii=False, indent=2)`. -/
def formatJson (v : Json) : String :=
  if v = .null then "null" else String.mk (dumpChars v 0)

/-! ## `json.loads` (strict decoding; numbers restricted to integers)

The decoder models CPython's `json.loads` on the integer-numbered JSON
fragment: payloads containing non-integer numbers (or the non-standard
`NaN`/`Infinity` constants, or unpaired surrogate escapes) are outside the
model and decode to `none` here. -/

/-- JSON insignificant whitespace (the characters skipped by the decoder). -/
def jsonWs (c : Char) : Bool :=
  c = ' ' ∨ c = '\t' ∨ c = '\n' ∨ c = '\r'

/-- Skip insignificant whitespace. -/
def skipWs (cs : List Char) : List Char :=
  cs.dropWhile jsonWs

/-- Value of one hex digit. -/
def hexVal (c : Char) : Option Nat :=
  if '0' ≤ c ∧ c ≤ '9' then some (c.toNat - 48)
  else if 'a' ≤ c ∧ c ≤ 'f' then some (c.toNat - 87)
  else if 'A' ≤ c ∧ c ≤ 'F' then some (c.toNat - 55)
  else none

/-- Value of a four-hex-digit escape. -/
def hex4 (a b c d : Char) : Option Nat := do
  let x1 ← hexVal a
  let x2 ← hexVal b
  let x3 ← hexVal c
  let x4 ← hexVal d
  pure (((x1 * 16 + x2) * 16 + x3) * 16 + x4)

mutual
/-- Body of a JSON string literal (after the opening quote): returns the
decoded string and the input following the closing quote.  Raw control
characters are rejected (`strict=True`); surrogate pairs in `\uXXXX`
escapes are combined; unpaired surrogates are outside the model. -/
def parseStrBody : List Char → List Char → Option (String × List Char)
  | _, [] => none
  | acc, c :: rest =>
    if c = '"' then some (String.mk acc.reverse, rest)
    else if c = '\\' then parseEsc acc rest
    else if c.toNat < 32 then none
    else parseStrBody (c :: acc) rest
termination_by structural acc cs => cs

/-- One backslash escape (the backslash already consumed). -/
def parseEsc : List Char → List Char → Option (String × List Char)
  | _, [] => none
  | acc, e :: rest2 =>
    if e = '"' then parseStrBody ('"' :: acc) rest2
    else if e = '\\' then parseStrBody ('\\' :: acc) rest2
    else if e = '/' then parseStrBody ('/' :: acc) rest2
    else if e = 'b' then parseStrBody (Char.ofNat 8 :: acc) rest2
    else if e = 'f' then parseStrBody (Char.ofNat 12 :: acc) rest2
    else if e = 'n' then parseStrBody ('\n' :: acc) rest2
    else if e = 'r' then parseStrBody ('\r' :: acc) rest2
    else if e = 't' then parseStrBody ('\t' :: acc) rest2
    else if e = 'u' then parseUEsc acc rest2
    else none
termination_by structural acc cs => cs

/-- A `\uXXXX` escape (after `\u`), combining surrogate pairs. -/
def parseUEsc : List Char → List Char → Option (String × List Char)
  | acc, a :: b :: c2 :: d :: rest3 =>
    match hex4 a b c2 d with
    | none => none
    | some n =>
      if n < 0xd800 then parseStrBody (Char.ofNat n :: acc) rest3
      else if n < 0xdc00 then parseLowSurr acc n rest3
      else if 0xe000 ≤ n ∧ n < 1114112 then
        parseStrBody (Char.ofNat n :: acc) rest3
      else none
  | _, _ => none
termination_by structural acc cs => cs

/-- The low half of a surrogate pair (`n` is the high half). -/
def parseLowSurr : List Char → Nat → List Char → Option (String × List Char)
  | acc, n, e2 :: u2 :: a2 :: b2 :: c3 :: d2 :: rest4 =>
    if e2 = '\\' ∧ u2 = 'u' then
      match hex4 a2 b2 c3 d2 with
      | none => none
      | some m =>
        if 0xdc00 ≤ m ∧ m < 0xe000 then
          parseStrBody
            (Char.ofNat (0x10000 + (n - 0xd800) * 0x400 + (m - 0xdc00)) :: acc)
            rest4
        else none
    else none
  | _, _, _ => none
termination_by structural acc n cs => cs
end

/-- Numeric value of a big-endian list of decimal digit characters. -/
def digitsToNat (ds : List Char) : Nat :=
  ds.foldl (fun a c => a * 10 + (c.toNat - 48)) 0

/-- An unsigned JSON integer: `0`, or a nonzero digit followed by digits
(a leading `0` terminates the number at once, as the decoder's regular
expression does). -/
def parseUInt : List Char → Option (Nat × List Char)
  | [] => none
  | c :: rest =>
    if c = '0' then some (0, rest)
    else if c.isDigit then
      some (digitsToNat (c :: rest.takeWhile Char.isDigit),
            rest.dropWhile Char.isDigit)
    else none

/-- A signed JSON integer. -/
def parseInt : List Char → Option (Int × List Char)
  | [] => none
  | c :: rest =>
    if c = '-' then (parseUInt rest).map (fun p => (-(p.1 : Int), p.2))
    else (parseUInt (c :: rest)).map (fun p => ((p.1 : Int), p.2))

mutual
/-- One JSON value, starting at a non-whitespace character. -/
def parseVal : Nat → List Char → Option (Json × List Char)
  | 0, _ => none
  | _ + 1, [] => none
  | fuel + 1, c :: rest =>
    if c = lbraceC then parseObjFields fuel (skipWs rest) []
    else if c = '[' then parseArrItems fuel (skipWs rest) []
    else if c = '"' then (parseStrBody [] rest).map (fun p => (.str p.1, p.2))
    else if c = 't' then
      match rest with
      | 'r' :: 'u' :: 'e' :: rest2 => some (.bool true, rest2)
      | _ => none
    else if c = 'f' then
      match rest with
      | 'a' :: 'l' :: 's' :: 'e' :: rest2 => some (.bool false, rest2)
      | _ => none
    else if c = 'n' then
      match rest with
      | 'u' :: 'l' :: 'l' :: rest2 => some (.null, rest2)
      | _ => none
    else if c = '-' ∨ c.isDigit then
      (parseInt (c :: rest)).map (fun p => (.num p.1, p.2))
    else none

/-- Array items after `[` (leading whitespace already skipped); `acc`
holds the items read so far. -/
def parseArrItems : Nat → List Char → List Json → Option (Json × List Char)
  | 0, _, _ => none
  | fuel + 1, cs, acc =>
    if cs.head? = some ']' ∧ acc.isEmpty then some (.arr [], cs.tail)
    else
      match parseVal fuel cs with
      | none => none
      | some (v, rest) =>
        match skipWs rest with
        | [] => none
        | c2 :: rest2 =>
          if c2 = ',' then parseArrItems fuel (skipWs rest2) (acc ++ [v])
          else if c2 = ']' then some (.arr (acc ++ [v]), rest2)
          else none

/-- Object entries after `{` (leading whitespace already skipped); `acc`
holds the entries read so far (duplicate keys update in place, as the
decoder builds a `dict`). -/
def parseObjFields : Nat → List Char → List (String × Json) →
    Option (Json × List Char)
  | 0, _, _ => none
  | fuel + 1, cs, acc =>
    match cs with
    | c :: rest =>
      if c = rbraceC ∧ acc.isEmpty then some (.obj [], rest)
      else if c = '"' then
        match parseStrBody [] rest with
        | none => none
        | some (key, rest2) =>
          match skipWs rest2 with
          | [] => none
          | c1 :: rest3 =>
            if c1 = ':' then
              match parseVal fuel (skipWs rest3) with
              | none => none
              | some (v, rest4) =>
                match skipWs rest4 with
                | [] => none
                | c2 :: rest5 =>
                  if c2 = ',' then
                    match skipWs rest5 with
                    | [] => none
                    | c3 :: rest6 =>
                      if c3 = '"' then
                        parseObjFields fuel (c3 :: rest6) (dictInsert acc key v)
                      else none
                  else if c2 = rbraceC then
                    some (.obj (dictInsert acc key v), rest5)
                  else none
            else none
      else none
    | [] => none
end

/-- `json.loads(s)` on the integer-numbered JSON fragment: decode one
value, allowing surrounding whitespace, requiring the whole input to be
consumed; `none` models `json.JSONDecodeError`. -/
def jsonLoads (s : String) : Option Json :=
  match parseVal (s.length + 1) (skipWs s.data) with
  | none => none
  | some (v, rest) => if (skipWs rest).isEmpty then some v else none

example : jsonLoads "null" = some .null := by decide
example : jsonLoads " [1, -2,  []] " = some (.arr [.num 1, .num (-2), .arr []]) := by decide
example : jsonLoads "\x7b\"a\": \"b\\nc\", \"a\": 2\x7d" = some (.obj [("a", .num 2)]) := by decide
example : jsonLoads "\x7b\"k\": true\x7d" = some (.obj [("k", .bool true)]) := by decide
example : jsonLoads "05" = none := by decide
example : jsonLoads "1.5" = none := by decide
example : jsonLoads "" = none := by decide
example : jsonLoads "\"\\u0041\"" = some (.str "A") := by decide
example : formatJson (.obj [("a", .arr [.num 1, .obj []]), ("b", .str "x")]) =
    "\x7b\n  \"a\": [\n    1,\n    \x7b\x7d\n  ],\n  \"b\": \"x\"\n\x7d" := by decide
example : jsonLoads (formatJson (.arr [.num 1, .arr [.num 2, .arr []]])) =
    some (.arr [.num 1, .arr [.num 2, .arr []]]) := by decide

example : pyStrip "  ab c\n" = "ab c" := by decide
example : truthy (.str "") = false := by decide
example : dictGet [("a", .num 1), ("b", .null)] "b" = some .null := by decide
example : String.mk (intRepr (-17)) = "-17" := by decide

/-! ## The parser's data model (`ParsedMessage`, module constants) -/

/-- The `ParsedMessage` dataclass.  Field types record what the parser
actually stores: `timestamp` is always a `str(...)` result, `content` is
always `None` or text, `source_line` is always `None` or a line number;
the remaining payload-carrying fields hold arbitrary decoded JSON
(Python `None` = `Json.null`, the dataclass default). -/
structure ParsedMessage where
  timestamp : String
  type : Json
  role : Json
  content : Option String
  call_id : Json := .null
  name : Json := .null
  arguments : Json := .null
  output : Json := .null
  metadata : Json := .null
  source_line : Option Nat := none
deriving DecidableEq

/-- `IGNORED_RECORD_TYPES` (empty in the source). -/
def ignoredRecordTypes : List Json := []

/-- `IGNORED_EVENT_SUBTYPES` (empty in the source). -/
def ignoredEventSubtypes : List Json := []

/-- `IGNORED_RESPONSE_SUBTYPES = {"reasoning"}`. -/
def ignoredResponseSubtypes : List Json := [.str "reasoning"]

/-- Parser state: the accumulated `messages` list and the
`pending_calls` dict.  Python's `pending_calls` maps a call id to an
alias of a message object that also sits in `messages`; the model stores
the message's index in `messages` instead, so the in-place mutation
`existing.output = ...` becomes an update of `messages` at that index.
`merged` is a ghost instrumentation counter (not part of the Python
state): it counts the `function_call_output` records that merged into a
pending call, for the message-count invariant of the specification. -/
structure ParseState where
  messages : List ParsedMessage
  pending : List (Json × Nat)
  merged : Nat
deriving DecidableEq

/-- `pending_calls.get(key)`. -/
def pendGet : List (Json × Nat) → Json → Option Nat
  | [], _ => none
  | (k, i) :: rest, key => if k = key then some i else pendGet rest key

/-- `pending_calls[key] = i`. -/
def pendSet : List (Json × Nat) → Json → Nat → List (Json × Nat)
  | [], key, i => [(key, i)]
  | (k, j) :: rest, key, i =>
    if k = key then (k, i) :: rest else (k, j) :: pendSet rest key i

/-- Append a message to the sequence. -/
def appendMsg (st : ParseState) (m : ParsedMessage) : ParseState :=
  { st with messages := st.messages ++ [m] }

/-- A placeholder message for out-of-range list access (never reached
when the pending-index invariant holds, mirroring Python where the alias
always exists). -/
def dummyMsg : ParsedMessage :=
  { timestamp := "", type := .null, role := .null, content := none }

/-- Set `output` on the message at index `i` (the model of
`existing.output = output_value` through the `pending_calls` alias). -/
def setOutputAt (ms : List ParsedMessage) (i : Nat) (v : Json) : List ParsedMessage :=
  ms.set i { ms.getD i dummyMsg with output := v }

/-! ## Value normalization and small helpers -/

/-- `_maybe_parse_json(value)`. -/
def maybeParseJson (v : Json) : Json :=
  match v with
  | .obj _ => v
  | .arr _ => v
  | .null => v
  | .str s =>
    let text := pyStrip s
    if text = "" then v
    else match jsonLoads text with
         | some decoded => decoded
         | none => v
  | _ => v

/-- `_coerce_to_text(value)` applied to a `payload.get(...)` result
(`none` = key absent, hence Python `None`). -/
def coerceToText (v : Option Json) : Option String :=
  match v with
  | none => none
  | some .null => none
  | some (.str s) => some s
  | some w => some (pyStr w)

/-- `value or default` for the common `record.get(k) or {}` pattern. -/
def orEmptyObj (v : Json) : Json :=
  if truthy v then v else .obj []

/-- `payload.get("content") or []`. -/
def orEmptyList (v : Json) : Json :=
  if truthy v then v else .arr []

/-- `f"event:{subtype or 'unknown'}"`, the part after the colon (also used
for `response:`). -/
def subtypeTag (subtype : Json) : String :=
  if truthy subtype then pyStr subtype else "unknown"

/-- One chunk of `_extract_text_chunks`: a dict item whose `type` is
`input_text`/`output_text` and whose `text` is truthy contributes
`str(text)`. -/
def chunkText (item : Json) : Option String :=
  match item with
  | .obj ifs =>
    if getField ifs "type" = .str "input_text" ∨ getField ifs "type" = .str "output_text" then
      let text := getField ifs "text"
      if truthy text then some (pyStr text) else none
    else none
  | _ => none

/-- `_extract_text_chunks(content_items)`: iterating a list inspects its
items; iterating a string yields its characters (never dicts) and
iterating a dict yields its keys (never dicts), so both produce no
chunks; iterating a number or boolean raises `TypeError` (`none`). -/
def extractTextChunks (v : Json) : Option (List String) :=
  match v with
  | .arr items => some (items.filterMap chunkText)
  | .str _ => some []
  | .obj _ => some []
  | _ => none

/-- `_format_usage(usage)`: label/value pairs for the present usage
fields, in the fixed label order; `none` models the `AttributeError`
raised when `usage` is truthy but not a dict. -/
def formatUsage (usage : Json) : Option String :=
  match usage with
  | .obj ufs =>
    let pick := fun (key label : String) =>
      match dictGet ufs key with
      | none => none
      | some .null => none
      | some w => some (label ++ "=" ++ pyStr w)
    let parts := List.filterMap (fun p => pick p.1 p.2)
      [("input_tokens", "in"), ("cached_input_tokens", "cached"),
       ("output_tokens", "out"), ("reasoning_output_tokens", "reasoning"),
       ("total_tokens", "total")]
    some (if parts.isEmpty then "n/a" else String.intercalate ", " parts)
  | _ => none

/-- `_summarize_token_count(payload)`: the two optional usage segments
(`none` = the `AttributeError` raised by `_format_usage` on a truthy
non-dict snapshot), the optional context-window segment, joined with
`"; "`, falling back to the formatted JSON of the whole payload when no
segment is present. -/
def summarizeTokenCount (payload : Json) : Option String :=
  match payload with
  | .obj pfs =>
    let info := orEmptyObj (getField pfs "info")
    match info with
    | .obj ifs =>
      let total := orEmptyObj (getField ifs "total_token_usage")
      let last := orEmptyObj (getField ifs "last_token_usage")
      match (if truthy total then
               (formatUsage total).map (fun u => ["total(" ++ u ++ ")"])
             else some []),
            (if truthy last then
               (formatUsage last).map (fun u => ["last(" ++ u ++ ")"])
             else some []) with
      | some seg1, some seg2 =>
        let seg3 := match dictGet ifs "model_context_window" with
          | none => []
          | some .null => []
          | some w => ["context_window=" ++ pyStr w]
        let segments := seg1 ++ seg2 ++ seg3
        some (if segments.isEmpty then formatJson payload
              else String.intercalate "; " segments)
      | _, _ => none
    | _ => none
  | _ => none

/-! ## Record dispatch -/

/-- `_handle_event_msg(payload, timestamp, lineno, messages)`. -/
def handleEventMsg (payload : Json) (timestamp : String) (lineno : Nat)
    (st : ParseState) : Option ParseState :=
  match payload with
  | .obj pfs =>
    let subtype := getField pfs "type"
    if ignoredEventSubtypes.contains subtype then some st
    else
      let role : Json :=
        if subtype = .str "user_message" then .str "user"
        else if subtype = .str "agent_message" then .str "assistant"
        else .null
      let mtype : Json := .str ("event:" ++ subtypeTag subtype)
      if subtype = .str "token_count" then
        match summarizeTokenCount payload with
        | none => none
        | some content =>
          some (appendMsg st
            { timestamp, type := mtype, role, content := some content,
              metadata := payload, source_line := some lineno })
      else
        match coerceToText (dictGet pfs "message") with
        | some c =>
          some (appendMsg st
            { timestamp, type := mtype, role, content := some c,
              source_line := some lineno })
        | none =>
          if truthy payload then
            some (appendMsg st
              { timestamp, type := mtype, role,
                content := some (formatJson payload), metadata := payload,
                source_line := some lineno })
          else
            some (appendMsg st
              { timestamp, type := mtype, role, content := none,
                source_line := some lineno })
  | _ => none

/-- `_handle_response_item(payload, timestamp, lineno, messages,
pending_calls)`. -/
def handleResponseItem (payload : Json) (timestamp : String) (lineno : Nat)
    (st : ParseState) : Option ParseState :=
  match payload with
  | .obj pfs =>
    let subtype := getField pfs "type"
    if ignoredResponseSubtypes.contains subtype then some st
    else if subtype = .str "message" then
      match extractTextChunks (orEmptyList (getField pfs "content")) with
      | none => none
      | some texts =>
        some (appendMsg st
          { timestamp, type := .str "message", role := getField pfs "role",
            content := if texts.isEmpty then none
                       else some (String.intercalate "\n\n" texts),
            source_line := some lineno })
    else if subtype = .str "function_call" then
      let call_id := getField pfs "call_id"
      let msg : ParsedMessage :=
        { timestamp, type := .str "function_call", role := .str "assistant",
          name := getField pfs "name", call_id,
          arguments := maybeParseJson (getField pfs "arguments"),
          content := none, source_line := some lineno }
      let st1 := appendMsg st msg
      if truthy call_id then
        if hashable call_id then
          some { st1 with pending := pendSet st1.pending call_id st.messages.length }
        else none
      else some st1
    else if subtype = .str "function_call_output" then
      let call_id := getField pfs "call_id"
      let output_value := maybeParseJson (getField pfs "output")
      let key := if truthy call_id then call_id else .str ""
      if hashable key then
        match pendGet st.pending key with
        | some i =>
          some { st with messages := setOutputAt st.messages i output_value,
                         merged := st.merged + 1 }
        | none =>
          some (appendMsg st
            { timestamp, type := .str "function_call", role := .str "assistant",
              call_id, output := output_value, content := none,
              source_line := some lineno })
      else none
    else
      some (appendMsg st
        { timestamp, type := .str ("response:" ++ subtypeTag subtype),
          role := getField pfs "role", content := some (formatJson payload),
          metadata := payload, source_line := some lineno })
  | _ => none

/-- `str(record.get("timestamp", "unknown"))`. -/
def recordTimestamp (fs : List (String × Json)) : String :=
  match dictGet fs "timestamp" with
  | some w => pyStr w
  | none => "unknown"

/-- `_consume_record(record, lineno, messages, pending_calls)`; `none`
models the `AttributeError` raised by `record.get` when the decoded line
is not an object, or by the handlers on malshaped payloads. -/
def consumeRecord (record : Json) (lineno : Nat) (st : ParseState) :
    Option ParseState :=
  match record with
  | .obj fs =>
    let rectype := getField fs "type"
    if ignoredRecordTypes.contains rectype then some st
    else
      let timestamp := recordTimestamp fs
      let payload := orEmptyObj (getField fs "payload")
      if rectype = .str "turn_context" then
        some (appendMsg st
          { timestamp, type := .str "turn_context", role := .str "system",
            content := some (formatJson payload), metadata := payload,
            source_line := some lineno })
      else if rectype = .str "session_meta" then
        some (appendMsg st
          { timestamp, type := .str "session_meta", role := .str "system",
            content := some (formatJson payload), metadata := payload,
            source_line := some lineno })
      else if rectype = .str "event_msg" then
        handleEventMsg payload timestamp lineno st
      else if rectype = .str "response_item" then
        handleResponseItem payload timestamp lineno st
      else
        some (appendMsg st
          { timestamp, type := if truthy rectype then rectype else .str "unknown",
            role := .null, content := some (formatJson payload),
            metadata := payload, source_line := some lineno })
  | _ => none

/-! ## The line loop (`parse_codex_log`) -/

/-- One iteration of the line loop: strip, skip blank lines, decode
(`json.JSONDecodeError` is caught and skips the line), dispatch. -/
def processLine (st : ParseState) (lineno : Nat) (rawLine : String) :
    Option ParseState :=
  let line := pyStrip rawLine
  if line = "" then some st
  else
    match jsonLoads line with
    | none => some st
    | some record => consumeRecord record lineno st

/-- The line loop from a given state and 1-based line number. -/
def processLines : ParseState → Nat → List String → Option ParseState
  | st, _, [] => some st
  | st, n, l :: ls =>
    match processLine st n l with
    | none => none
    | some st1 => processLines st1 (n + 1) ls

/-- The empty starting state. -/
def initState : ParseState := { messages := [], pending := [], merged := 0 }

/-- `parse_codex_log`, with the file given as its list of lines; the full
final state (`none` = the parse raised). -/
def parseCodexLogSt (lines : List String) : Option ParseState :=
  processLines initState 1 lines

/-- `parse_codex_log(path) → List[ParsedMessage]` (`none` = the parse
raised an uncaught exception). -/
def parse_codex_log (lines : List String) : Option (List ParsedMessage) :=
  (parseCodexLogSt lines).map (fun st => st.messages)

/-- Record-level processing: the same dispatch applied to a list of
already-decoded records (one record per line). -/
def processRecords : ParseState → Nat → List Json → Option ParseState
  | st, _, [] => some st
  | st, n, r :: rs =>
    match consumeRecord r n st with
    | none => none
    | some st1 => processRecords st1 (n + 1) rs

/-! ## `extract_vm_compile_c_and_upload_flags` -/

/-- The fixed tool identifier. -/
def vmCompileToolName : String := "mcp__kernelmcp__vm_compile_c_and_upload"

/-- Is the value a Python `str`? (`isinstance(x, str)`). -/
def isStrJson : Json → Bool
  | .str _ => true
  | _ => false

/-- The flag list used by one message, if the message is a
`vm_compile_c_and_upload` function call: `arguments["flags"]` when it is
a list of strings (dropping falsy, i.e. empty, items), else the default. -/
def callFlags (msg : ParsedMessage) (dflt : List String) : Option (List String) :=
  if msg.type ≠ .str "function_call" then none
  else if ¬ truthy msg.name then none
  else if msg.name ≠ .str vmCompileToolName then none
  else
    let flags : Option (List String) :=
      match msg.arguments with
      | .obj afs =>
        match dictGet afs "flags" with
        | some (.arr raw) =>
          if raw.all isStrJson then
            some ((raw.filterMap (fun x => match x with
              | .str s => some s
              | _ => none)).filter (fun s => s ≠ ""))
          else none
        | _ => none
      | _ => none
    match flags with
    | some fl => some (if fl.isEmpty then dflt else fl)
    | none => some dflt

/-- The dedup loop over messages, carrying the `seen` set and the output
list in order. -/
def extractLoop (dflt : List String) :
    List ParsedMessage → List (List String) → List (List String) →
    List (List String)
  | [], _, out => out
  | m :: ms, seen, out =>
    match callFlags m dflt with
    | none => extractLoop dflt ms seen out
    | some fl =>
      if fl ∈ seen then extractLoop dflt ms seen out
      else extractLoop dflt ms (fl :: seen) (out ++ [fl])

/-- The order of the sort key `(len(xs), xs)` used by `out.sort`: by
length first, then lexicographically (Python list comparison; `≤` is the
lexicographic linear order on `List String`). -/
def flagLE (a b : List String) : Prop :=
  a.length < b.length ∨ (a.length = b.length ∧ a ≤ b)

instance : DecidableRel flagLE := fun a b => by
  unfold flagLE; infer_instance

instance : IsTotal (List String) flagLE where
  total a b := by
    rcases Nat.lt_trichotomy a.length b.length with h | h | h
    · exact Or.inl (Or.inl h)
    · rcases le_total a b with hle | hle
      · exact Or.inl (Or.inr ⟨h, hle⟩)
      · exact Or.inr (Or.inr ⟨h.symm, hle⟩)
    · exact Or.inr (Or.inl h)

instance : IsTrans (List String) flagLE where
  trans a b c hab hbc := by
    rcases hab with h1 | ⟨h1, h1le⟩
    · rcases hbc with h2 | ⟨h2, _⟩
      · exact Or.inl (h1.trans h2)
      · exact Or.inl (h2 ▸ h1)
    · rcases hbc with h2 | ⟨h2, h2le⟩
      · exact Or.inl (h1 ▸ h2)
      · exact Or.inr ⟨h1.trans h2, le_trans h1le h2le⟩

/-- `extract_vm_compile_c_and_upload_flags(messages, default_flags=...)`;
`default_flags = none` models the Python default `None`, replaced by
`["-static"]`. -/
def extract_vm_compile_c_and_upload_flags (messages : List ParsedMessage)
    (default_flags : Option (List String)) : List (List String) :=
  let dflt := default_flags.getD ["-static"]
  List.insertionSort flagLE (extractLoop dflt messages [] [])

/-! ## Record-shape predicates used in claim statements -/

/-- A record of kind `response_item` whose payload has sub-kind
`reasoning` (the always-ignored response subtype). -/
def isReasoningRecord (r : Json) : Bool :=
  match r with
  | .obj fs =>
    getField fs "type" = .str "response_item" &&
    (match orEmptyObj (getField fs "payload") with
     | .obj pfs => ignoredResponseSubtypes.contains (getField pfs "type")
     | _ => false)
  | _ => false

/-- Does the event-subtype ignore set drop this payload? -/
def eventDropped (p : Json) : Bool :=
  match p with
  | .obj pfs => ignoredEventSubtypes.contains (getField pfs "type")
  | _ => false

/-- Does the response-subtype ignore set drop this payload? -/
def respDropped (p : Json) : Bool :=
  match p with
  | .obj pfs => ignoredResponseSubtypes.contains (getField pfs "type")
  | _ => false

/-- Would the record be dropped by the explicit ignore policy
(ignored top-level kinds, ignored event sub-kinds, ignored response
sub-kinds, the latter being `\x7b"reasoning"\x7d`)? -/
def droppedByPolicy (r : Json) : Bool :=
  match r with
  | .obj fs =>
    let rectype := getField fs "type"
    ignoredRecordTypes.contains rectype ||
    (rectype = .str "event_msg" && eventDropped (orEmptyObj (getField fs "payload"))) ||
    (rectype = .str "response_item" && respDropped (orEmptyObj (getField fs "payload")))
  | _ => false

/-- The lookup key used by the `function_call_output` branch:
`call_id or ""`. -/
def outputLookupKey (callId : Json) : Json :=
  if truthy callId then callId else .str ""

/-! ## Claim C6: reasoning response items are dropped without any effect -/

/-- C6: a `response_item` record whose payload sub-kind is `"reasoning"`
contributes no message and leaves the whole parser state — including the
call-correlation map — unchanged, whatever the rest of its payload is. -/
theorem reasoning_response_item_is_noop (r : Json) (n : Nat) (st : ParseState)
    (h : isReasoningRecord r = true) :
    consumeRecord r n st = some st := by
  cases r with
  | obj fs =>
    simp only [isReasoningRecord, Bool.and_eq_true, decide_eq_true_eq] at h
    obtain ⟨htype, hpay⟩ := h
    rcases hp : orEmptyObj (getField fs "payload") with _ | _ | _ | _ | _ | pfs <;>
      rw [hp] at hpay
    all_goals try exact Bool.noConfusion hpay
    have hpay2 : ignoredResponseSubtypes.contains (getField pfs "type") = true := hpay
    simp [consumeRecord, htype, hp, handleResponseItem, hpay2, ignoredRecordTypes]
    intro hmem
    exact absurd (by simpa using hpay2) hmem
  | null => simp [isReasoningRecord] at h
  | bool b => simp [isReasoningRecord] at h
  | num i => simp [isReasoningRecord] at h
  | str s => simp [isReasoningRecord] at h
  | arr xs => simp [isReasoningRecord] at h

/-- Witness for C6 at a concrete reasoning record. -/
theorem reasoning_response_item_is_noop_witness :
    isReasoningRecord (.obj [("type", .str "response_item"),
        ("payload", .obj [("type", .str "reasoning"),
                          ("encrypted_content", .str "opaque")])]) = true ∧
    consumeRecord (.obj [("type", .str "response_item"),
        ("payload", .obj [("type", .str "reasoning"),
                          ("encrypted_content", .str "opaque")])]) 3 initState =
      some initState :=
  ⟨by decide, reasoning_response_item_is_noop _ 3 initState (by decide)⟩

/-! ## The `function_call_output` dispatch branch -/

/-- Unfolding lemma: on a `response_item` record of sub-kind
`function_call_output` with a hashable lookup key, the parser merges into
the registered call when the key is found in `pending_calls`, and appends
a standalone message otherwise. -/
theorem consumeRecord_output_branch
    (fs pfs : List (String × Json)) (n : Nat) (st : ParseState)
    (hrec : getField fs "type" = .str "response_item")
    (hpay : orEmptyObj (getField fs "payload") = .obj pfs)
    (hsub : getField pfs "type" = .str "function_call_output")
    (hkey : hashable (outputLookupKey (getField pfs "call_id")) = true) :
    consumeRecord (.obj fs) n st =
      match pendGet st.pending (outputLookupKey (getField pfs "call_id")) with
      | some i =>
        some { st with
          messages := setOutputAt st.messages i (maybeParseJson (getField pfs "output")),
          merged := st.merged + 1 }
      | none =>
        some (appendMsg st
          { timestamp := recordTimestamp fs, type := .str "function_call",
            role := .str "assistant", call_id := getField pfs "call_id",
            output := maybeParseJson (getField pfs "output"), content := none,
            source_line := some n }) := by
  rw [show outputLookupKey (getField pfs "call_id") =
        (if truthy (getField pfs "call_id") = true then getField pfs "call_id"
         else .str "") from by simp [outputLookupKey]] at hkey ⊢
  simp [consumeRecord, hrec, hpay, handleResponseItem, hsub, hkey,
    ignoredRecordTypes, ignoredResponseSubtypes]

/-! ## Claim C4 (amended): unmatched outputs append a standalone message -/

/-- C4 (amended): a `function_call_output` record whose lookup key is
hashable and not registered in `pending_calls` (never registered — keys
are never removed — including an absent `call_id`) appends a standalone
message with `type="function_call"`, `role="assistant"`, the payload's
`call_id`, the normalized output, and no `name`/`arguments`. -/
theorem unmatched_output_appends_standalone
    (fs pfs : List (String × Json)) (n : Nat) (st : ParseState)
    (hrec : getField fs "type" = .str "response_item")
    (hpay : orEmptyObj (getField fs "payload") = .obj pfs)
    (hsub : getField pfs "type" = .str "function_call_output")
    (hkey : hashable (outputLookupKey (getField pfs "call_id")) = true)
    (hpend : pendGet st.pending (outputLookupKey (getField pfs "call_id")) = none) :
    consumeRecord (.obj fs) n st =
      some (appendMsg st
        { timestamp := recordTimestamp fs, type := .str "function_call",
          role := .str "assistant", call_id := getField pfs "call_id",
          output := maybeParseJson (getField pfs "output"), content := none,
          name := .null, arguments := .null, metadata := .null,
          source_line := some n }) := by
  rw [consumeRecord_output_branch fs pfs n st hrec hpay hsub hkey, hpend]

/-- Witness for C4 (amended) at a concrete record with an absent
`call_id`. -/
theorem unmatched_output_appends_standalone_witness :
    consumeRecord (.obj [("type", .str "response_item"),
        ("payload", .obj [("type", .str "function_call_output"),
                          ("output", .str "done")])]) 2 initState =
      some (appendMsg initState
        { timestamp := "unknown", type := .str "function_call",
          role := .str "assistant", call_id := .null,
          output := .str "done", content := none,
          name := .null, arguments := .null, metadata := .null,
          source_line := some 2 }) :=
  (unmatched_output_appends_standalone
    [("type", .str "response_item"),
     ("payload", .obj [("type", .str "function_call_output"),
                       ("output", .str "done")])]
    [("type", .str "function_call_output"), ("output", .str "done")]
    2 initState (by decide) (by decide) (by decide) (by decide)
    (by decide)).trans (by decide)

/-- Counterexample to C4 as stated: an output record whose `call_id` is a
(truthy, unhashable) JSON array is a `function_call_output` whose
`call_id` was never registered as pending, yet the parser does not append
a standalone message — it raises `TypeError` (`none`), killing the whole
parse; the record is dropped together with everything after it. -/
theorem unhashable_output_call_id_raises :
    consumeRecord (.obj [("type", .str "response_item"),
        ("payload", .obj [("type", .str "function_call_output"),
                          ("call_id", .arr [.num 1]),
                          ("output", .str "x")])]) 1 initState = none ∧
    parse_codex_log
      ["\x7b\"type\":\"response_item\",\"payload\":\x7b\"type\":\"function_call_output\",\"call_id\":[1],\"output\":\"x\"\x7d\x7d",
       "\x7b\"type\":\"session_meta\"\x7d"] = none := by
  constructor
  · decide
  · decide

/-! ## Claim C1 (amended): duplicate outputs re-merge and overwrite -/

/-- C1 (amended): a `function_call_output` record whose lookup key is
still registered in `pending_calls` — which includes every identifier
already resolved by an earlier output, since resolution never removes the
entry — re-merges into the registered call message, overwriting its
`output` with the new normalized value; no standalone message is
appended and the identifier stays registered. -/
theorem duplicate_output_remerges_and_overwrites
    (fs pfs : List (String × Json)) (n : Nat) (st : ParseState) (i : Nat)
    (hrec : getField fs "type" = .str "response_item")
    (hpay : orEmptyObj (getField fs "payload") = .obj pfs)
    (hsub : getField pfs "type" = .str "function_call_output")
    (hkey : hashable (outputLookupKey (getField pfs "call_id")) = true)
    (hpend : pendGet st.pending (outputLookupKey (getField pfs "call_id")) = some i) :
    consumeRecord (.obj fs) n st =
      some { st with
        messages := setOutputAt st.messages i (maybeParseJson (getField pfs "output")),
        merged := st.merged + 1 } := by
  rw [consumeRecord_output_branch fs pfs n st hrec hpay hsub hkey, hpend]

/-- Witness for C1 (amended): a state in which call `c1` was already
resolved (its message has `output="r1"` and `pending_calls` still maps
`c1` to it); a second output record for `c1` overwrites the output. -/
theorem duplicate_output_remerges_and_overwrites_witness :
    consumeRecord (.obj [("type", .str "response_item"),
        ("payload", .obj [("type", .str "function_call_output"),
                          ("call_id", .str "c1"),
                          ("output", .str "r2")])]) 3
      { messages := [{ timestamp := "unknown", type := .str "function_call",
                       role := .str "assistant", content := none,
                       call_id := .str "c1", name := .str "run",
                       output := .str "r1", source_line := some 1 }],
        pending := [(.str "c1", 0)], merged := 1 } =
      some { messages := [{ timestamp := "unknown", type := .str "function_call",
                            role := .str "assistant", content := none,
                            call_id := .str "c1", name := .str "run",
                            output := .str "r2", source_line := some 1 }],
             pending := [(.str "c1", 0)], merged := 2 } :=
  (duplicate_output_remerges_and_overwrites
    [("type", .str "response_item"),
     ("payload", .obj [("type", .str "function_call_output"),
                       ("call_id", .str "c1"), ("output", .str "r2")])]
    [("type", .str "function_call_output"), ("call_id", .str "c1"),
     ("output", .str "r2")]
    3 _ 0 (by decide) (by decide) (by decide) (by decide)
    (by decide)).trans (by decide)

/-- Counterexample to C1 as stated: stream = a call for `c1`, its
resolving output (`"r1"`), then a second output for `c1` (`"r2"`).  The
claim demands a second, standalone message and the merged value `"r1"`
left unchanged; the code instead ends with a single message whose output
has been overwritten to `"r2"`. -/
theorem second_output_for_resolved_call_overwrites :
    (processRecords initState 1
      [.obj [("type", .str "response_item"),
             ("payload", .obj [("type", .str "function_call"),
                               ("call_id", .str "c1"), ("name", .str "run")])],
       .obj [("type", .str "response_item"),
             ("payload", .obj [("type", .str "function_call_output"),
                               ("call_id", .str "c1"), ("output", .str "r1")])],
       .obj [("type", .str "response_item"),
             ("payload", .obj [("type", .str "function_call_output"),
                               ("call_id", .str "c1"), ("output", .str "r2")])]]).map
      (fun st => (st.messages.length, st.messages.map (fun m => m.output))) =
      some (1, [.str "r2"]) := by
  decide

/-! ## Claim C10: merging is frame-local to the `output` field -/

/-- Updating the output at index `i` keeps the list length. -/
theorem setOutputAt_length (ms : List ParsedMessage) (i : Nat) (v : Json) :
    (setOutputAt ms i v).length = ms.length := by
  simp [setOutputAt]

/-- Updating the output at index `i` leaves every other index unchanged. -/
theorem setOutputAt_getD_ne (ms : List ParsedMessage) (i v j)
    (h : j ≠ i) : (setOutputAt ms i v).getD j dummyMsg = ms.getD j dummyMsg := by
  simp only [setOutputAt, List.getD_eq_getElem?_getD]
  rw [List.getElem?_set_ne (fun hh => h hh.symm)]

/-- Updating the output at a valid index `i` replaces exactly the
`output` field there. -/
theorem setOutputAt_getD_self (ms : List ParsedMessage) (i v)
    (h : i < ms.length) :
    (setOutputAt ms i v).getD i dummyMsg = { ms.getD i dummyMsg with output := v } := by
  simp only [setOutputAt, List.getD_eq_getElem?_getD]
  rw [List.getElem?_set_self h]
  simp [List.getD_eq_getElem?_getD, List.getElem?_eq_getElem h]

/-- C10: when a `function_call_output` record merges into a registered
call message, only that message's `output` changes — its timestamp, type,
role, name, call id, arguments, content, metadata and source line keep
the call record's values, every other message is untouched, the sequence
length is unchanged (so the output record's own timestamp and line number
are recorded nowhere), and the correlation map is unchanged. -/
theorem merge_updates_only_output
    (fs pfs : List (String × Json)) (n : Nat) (st : ParseState) (i : Nat)
    (hrec : getField fs "type" = .str "response_item")
    (hpay : orEmptyObj (getField fs "payload") = .obj pfs)
    (hsub : getField pfs "type" = .str "function_call_output")
    (hkey : hashable (outputLookupKey (getField pfs "call_id")) = true)
    (hpend : pendGet st.pending (outputLookupKey (getField pfs "call_id")) = some i)
    (hi : i < st.messages.length) :
    ∃ st', consumeRecord (.obj fs) n st = some st' ∧
      st'.messages.length = st.messages.length ∧
      (∀ j, j ≠ i → st'.messages.getD j dummyMsg = st.messages.getD j dummyMsg) ∧
      (st'.messages.getD i dummyMsg).output = maybeParseJson (getField pfs "output") ∧
      (st'.messages.getD i dummyMsg).timestamp = (st.messages.getD i dummyMsg).timestamp ∧
      (st'.messages.getD i dummyMsg).type = (st.messages.getD i dummyMsg).type ∧
      (st'.messages.getD i dummyMsg).role = (st.messages.getD i dummyMsg).role ∧
      (st'.messages.getD i dummyMsg).name = (st.messages.getD i dummyMsg).name ∧
      (st'.messages.getD i dummyMsg).call_id = (st.messages.getD i dummyMsg).call_id ∧
      (st'.messages.getD i dummyMsg).arguments = (st.messages.getD i dummyMsg).arguments ∧
      (st'.messages.getD i dummyMsg).content = (st.messages.getD i dummyMsg).content ∧
      (st'.messages.getD i dummyMsg).metadata = (st.messages.getD i dummyMsg).metadata ∧
      (st'.messages.getD i dummyMsg).source_line = (st.messages.getD i dummyMsg).source_line ∧
      st'.pending = st.pending := by
  have hb := consumeRecord_output_branch fs pfs n st hrec hpay hsub hkey
  rw [hpend] at hb
  refine ⟨_, hb, setOutputAt_length _ _ _,
    fun j hj => setOutputAt_getD_ne _ _ _ _ hj,
    ?_, ?_, ?_, ?_, ?_, ?_, ?_, ?_, ?_, ?_, rfl⟩ <;>
    rw [setOutputAt_getD_self _ _ _ hi]

/-- Witness for C10 at a concrete two-message state where the second
message is the registered pending call. -/
theorem merge_updates_only_output_witness :
    (pendGet ([(.str "k", 1)] : List (Json × Nat))
        (outputLookupKey (getField [("type", .str "function_call_output"),
          ("call_id", .str "k"), ("output", .str "out2")] "call_id")) = some 1) ∧
    ∃ st', consumeRecord (.obj [("type", .str "response_item"),
        ("payload", .obj [("type", .str "function_call_output"),
          ("call_id", .str "k"), ("output", .str "out2")])]) 9
        { messages := [dummyMsg,
            { timestamp := "t1", type := .str "function_call",
              role := .str "assistant", content := none, call_id := .str "k",
              name := .str "f", source_line := some 4 }],
          pending := [(.str "k", 1)], merged := 0 } = some st' ∧
      st'.messages.length = 2 ∧
      (st'.messages.getD 1 dummyMsg).output = .str "out2" ∧
      (st'.messages.getD 1 dummyMsg).timestamp = "t1" ∧
      (st'.messages.getD 1 dummyMsg).source_line = some 4 := by
  refine ⟨by decide, ?_⟩
  obtain ⟨st', h1, h2, h3, h4, h5, h6, h7, h8, h9, h10, h11, h12, h13, h14⟩ :=
    merge_updates_only_output
      [("type", .str "response_item"),
       ("payload", .obj [("type", .str "function_call_output"),
         ("call_id", .str "k"), ("output", .str "out2")])]
      [("type", .str "function_call_output"), ("call_id", .str "k"),
       ("output", .str "out2")]
      9
      { messages := [dummyMsg,
          { timestamp := "t1", type := .str "function_call",
            role := .str "assistant", content := none, call_id := .str "k",
            name := .str "f", source_line := some 4 }],
        pending := [(.str "k", 1)], merged := 0 }
      1 (by decide) (by decide) (by decide) (by decide) (by decide) (by decide)
  exact ⟨st', h1, by rw [h2]; decide, by rw [h4]; decide, by rw [h5]; decide,
    by rw [h13]; decide⟩

/-! ## Claim C2: undecodable lines are skipped; non-object JSON is not -/

/-- C2 (amended): a line that fails JSON decoding (after stripping;
including blank lines) produces no message, changes no state, and the
loop continues with the next line unharmed — a corrupt line never aborts
the scan. -/
theorem undecodable_line_skipped (st : ParseState) (n : Nat)
    (bad : String) (rest : List String)
    (h : jsonLoads (pyStrip bad) = none) :
    processLines st n (bad :: rest) = processLines st (n + 1) rest := by
  have hline : processLine st n bad = some st := by
    unfold processLine
    by_cases he : pyStrip bad = ""
    · rw [if_pos he]
    · rw [if_neg he, h]
  have hstep : processLines st n (bad :: rest) =
      match processLine st n bad with
      | none => none
      | some st1 => processLines st1 (n + 1) rest := rfl
  rw [hstep, hline]

/-- Witness for C2 (amended): an invalid JSON line in mid-stream
contributes nothing and processing continues with the next line. -/
theorem undecodable_line_skipped_witness :
    jsonLoads (pyStrip "\x7bnot json") = none ∧
    processLines
        (appendMsg initState
          { timestamp := "unknown", type := .str "session_meta",
            role := .str "system", content := some "\x7b\x7d",
            metadata := .obj [], source_line := some 1 }) 2
        ["\x7bnot json", "\x7b\"type\":\"turn_context\"\x7d"] =
      processLines
        (appendMsg initState
          { timestamp := "unknown", type := .str "session_meta",
            role := .str "system", content := some "\x7b\x7d",
            metadata := .obj [], source_line := some 1 }) 3
        ["\x7b\"type\":\"turn_context\"\x7d"] :=
  ⟨by decide,
   undecodable_line_skipped _ 2 "\x7bnot json"
     ["\x7b\"type\":\"turn_context\"\x7d"] (by decide)⟩

/-- Counterexample to C2 as stated: the line `5` is valid JSON decoding
to a scalar, so the claim demands that it produce no message and that
the following (perfectly valid) line still be processed; instead
`record.get("type")` raises `AttributeError` (`none`) and the whole
parse — including every subsequent line — is aborted, while the same
stream without the scalar line parses fine. -/
theorem scalar_json_line_aborts_parse :
    parse_codex_log ["5", "\x7b\"type\":\"session_meta\"\x7d"] = none ∧
    parse_codex_log ["\x7b\"type\":\"session_meta\"\x7d"] =
      some [{ timestamp := "unknown", type := .str "session_meta",
              role := .str "system", content := some "\x7b\x7d",
              metadata := .obj [], source_line := some 1 }] := by
  exact ⟨by decide, by decide⟩

/-! ## Claim C5: the message-count invariant -/

/-- Count effect of the event handler: a dropped sub-kind leaves the
state unchanged; every other event appends exactly one message. -/
theorem handleEventMsg_count (p : Json) (ts : String) (n : Nat)
    (st st' : ParseState) (h : handleEventMsg p ts n st = some st') :
    (eventDropped p = true ∧ st' = st) ∨
    (eventDropped p = false ∧
      st'.messages.length = st.messages.length + 1 ∧ st'.merged = st.merged) := by
  cases p with
  | obj pfs =>
    simp only [handleEventMsg] at h
    revert h
    split
    · rename_i hcond
      intro h
      exact Or.inl ⟨hcond, (Option.some.inj h).symm⟩
    · rename_i hcond
      intro h
      refine Or.inr ⟨by simp only [Bool.not_eq_true] at hcond; exact hcond, ?_⟩
      revert h
      split
      · split
        · intro h; exact absurd h (by simp)
        · intro h; cases h; simp [appendMsg]
      · split
        · intro h; cases h; simp [appendMsg]
        · split <;> (intro h; cases h; simp [appendMsg])
  | null => exact absurd h (by simp [handleEventMsg])
  | bool b => exact absurd h (by simp [handleEventMsg])
  | num i => exact absurd h (by simp [handleEventMsg])
  | str s => exact absurd h (by simp [handleEventMsg])
  | arr xs => exact absurd h (by simp [handleEventMsg])

/-- Count effect of the response handler: a dropped (reasoning) sub-kind
leaves the state unchanged; everything else either appends one message
or merges one output (incrementing the ghost `merged` counter). -/
theorem handleResponseItem_count (p : Json) (ts : String) (n : Nat)
    (st st' : ParseState) (h : handleResponseItem p ts n st = some st') :
    (respDropped p = true ∧ st' = st) ∨
    (respDropped p = false ∧
      st'.messages.length + st'.merged = st.messages.length + st.merged + 1) := by
  cases p with
  | obj pfs =>
    simp only [handleResponseItem] at h
    revert h
    split
    · rename_i hcond
      intro h
      exact Or.inl ⟨hcond, (Option.some.inj h).symm⟩
    · rename_i hcond
      intro h
      refine Or.inr ⟨by simp only [Bool.not_eq_true] at hcond; exact hcond, ?_⟩
      revert h
      split
      · split
        · intro h; exact absurd h (by simp)
        · intro h; cases h; simp [appendMsg]; omega
      · split
        · split
          · split
            · intro h; cases h; simp [appendMsg]; omega
            · intro h; exact absurd h (by simp)
          · intro h; cases h; simp [appendMsg]; omega
        · split
          · intro h
            cases htr : truthy (getField pfs "call_id") with
            | false =>
              simp only [htr, Bool.false_eq_true, if_false] at h
              rw [if_pos (by decide : hashable (Json.str "") = true)] at h
              rcases hpg : pendGet st.pending (.str "") with _ | i <;>
                rw [hpg] at h
              · cases h; simp [appendMsg]; omega
              · cases h; simp [setOutputAt_length]; omega
            | true =>
              simp only [htr, if_true] at h
              cases hh : hashable (getField pfs "call_id") with
              | false =>
                rw [if_neg (by simp [hh])] at h
                exact absurd h (by simp)
              | true =>
                rw [if_pos hh] at h
                rcases hpg : pendGet st.pending (getField pfs "call_id") with _ | i <;>
                  rw [hpg] at h
                · cases h; simp [appendMsg]; omega
                · cases h; simp [setOutputAt_length]; omega
          · intro h; cases h; simp [appendMsg]; omega
  | null => exact absurd h (by simp [handleResponseItem])
  | bool b => exact absurd h (by simp [handleResponseItem])
  | num i => exact absurd h (by simp [handleResponseItem])
  | str s => exact absurd h (by simp [handleResponseItem])
  | arr xs => exact absurd h (by simp [handleResponseItem])

/-- Count effect of one record: a successfully consumed record
contributes one message-or-merge unless the ignore policy drops it. -/
theorem consumeRecord_count (r : Json) (n : Nat) (st st' : ParseState)
    (h : consumeRecord r n st = some st') :
    st'.messages.length + st'.merged =
      st.messages.length + st.merged +
        (if droppedByPolicy r = true then 0 else 1) := by
  cases r with
  | obj fs =>
    simp only [consumeRecord] at h
    revert h
    split
    · rename_i hig
      intro h
      cases h
      have hd : droppedByPolicy (.obj fs) = true := by
        simp only [droppedByPolicy, Bool.or_eq_true]
        exact Or.inl (Or.inl hig)
      rw [hd]
      simp
    · rename_i hig
      split
      · rename_i htc
        intro h
        cases h
        have hd : droppedByPolicy (.obj fs) = false := by
          simp [droppedByPolicy, htc, ignoredRecordTypes]
        rw [hd]
        simp [appendMsg]
        omega
      · split
        · rename_i htc hsm
          intro h
          cases h
          have hd : droppedByPolicy (.obj fs) = false := by
            simp [droppedByPolicy, hsm, ignoredRecordTypes]
          rw [hd]
          simp [appendMsg]
          omega
        · split
          · rename_i h1 h2 hev
            intro h
            have hd : droppedByPolicy (.obj fs) =
                eventDropped (orEmptyObj (getField fs "payload")) := by
              simp [droppedByPolicy, hev, ignoredRecordTypes]
            rw [hd]
            rcases handleEventMsg_count _ _ _ _ _ h with ⟨hdrop, rfl⟩ | ⟨hdrop, hlen, hmer⟩
            · rw [hdrop]; simp
            · rw [hdrop]; simp; omega
          · split
            · rename_i h1 h2 h3 hri
              intro h
              have hd : droppedByPolicy (.obj fs) =
                  respDropped (orEmptyObj (getField fs "payload")) := by
                simp [droppedByPolicy, hri, ignoredRecordTypes]
              rw [hd]
              rcases handleResponseItem_count _ _ _ _ _ h with ⟨hdrop, rfl⟩ | ⟨hdrop, hsum⟩
              · rw [hdrop]; simp
              · rw [hdrop]; simp; omega
            · rename_i h1 h2 h3 h4
              intro h
              cases h
              have hd : droppedByPolicy (.obj fs) = false := by
                simp only [droppedByPolicy, ignoredRecordTypes]
                simp [h2, h3, h4]
              rw [hd]
              simp [appendMsg]
              omega
  | null => exact absurd h (by simp [consumeRecord])
  | bool b => exact absurd h (by simp [consumeRecord])
  | num i => exact absurd h (by simp [consumeRecord])
  | str s => exact absurd h (by simp [consumeRecord])
  | arr xs => exact absurd h (by simp [consumeRecord])

/-- A line that decodes (after stripping) to a record the ignore policy
keeps. -/
def keptLine (l : String) : Bool :=
  match jsonLoads (pyStrip l) with
  | none => false
  | some r => !droppedByPolicy r

/-- The count invariant along the line loop, from any starting state. -/
theorem processLines_count (ls : List String) :
    ∀ (st : ParseState) (n : Nat) (st' : ParseState),
      processLines st n ls = some st' →
      st'.messages.length + st'.merged =
        st.messages.length + st.merged + ls.countP (fun l => keptLine l) := by
  induction ls with
  | nil =>
    intro st n st' h
    cases h
    simp
  | cons l ls ih =>
    intro st n st' h
    have hstep : processLines st n (l :: ls) =
        match processLine st n l with
        | none => none
        | some st1 => processLines st1 (n + 1) ls := rfl
    rw [hstep] at h
    cases hl : processLine st n l with
    | none => rw [hl] at h; exact absurd h (by simp)
    | some st1 =>
      rw [hl] at h
      have hrest := ih st1 (n + 1) st' h
      have hone : st1.messages.length + st1.merged =
          st.messages.length + st.merged +
            (if keptLine l = true then 1 else 0) := by
        unfold processLine at hl
        by_cases hs : pyStrip l = ""
        · rw [if_pos hs] at hl
          cases hl
          have : keptLine l = false := by
            unfold keptLine
            rw [hs]
            decide
          rw [this]
          simp
        · rw [if_neg hs] at hl
          cases hj : jsonLoads (pyStrip l) with
          | none =>
            rw [hj] at hl
            cases hl
            have : keptLine l = false := by unfold keptLine; rw [hj]
            rw [this]
            simp
          | some r =>
            rw [hj] at hl
            have hc := consumeRecord_count r n st st1 hl
            have : keptLine l = !droppedByPolicy r := by unfold keptLine; rw [hj]
            rw [this]
            cases hdp : droppedByPolicy r <;> rw [hdp] at hc <;> simp at hc ⊢ <;> omega
      rw [List.countP_cons]
      omega

/-- C5: whenever the parse completes, the number of output messages plus
the number of merged `function_call_output` records equals the number of
input lines that decode successfully and are not dropped by the ignore
policy (ignored top-level kinds and event sub-kinds — both sets empty —
and the `reasoning` response sub-kind). -/
theorem message_count_invariant (lines : List String) (st' : ParseState)
    (h : parseCodexLogSt lines = some st') :
    st'.messages.length + st'.merged =
      lines.countP (fun l => keptLine l) := by
  have := processLines_count lines initState 1 st' h
  simpa [initState] using this

/-- Witness for C5: a call line, its output line (which merges), and a
corrupt line: two messages-or-merges, two kept lines. -/
theorem message_count_invariant_witness :
    parseCodexLogSt
        ["\x7b\"type\":\"response_item\",\"payload\":\x7b\"type\":\"function_call\",\"call_id\":\"c\"\x7d\x7d",
         "\x7b\"type\":\"response_item\",\"payload\":\x7b\"type\":\"function_call_output\",\"call_id\":\"c\",\"output\":\"r\"\x7d\x7d",
         "\x7bx"] =
      some { messages := [{ timestamp := "unknown", type := .str "function_call",
                            role := .str "assistant", content := none,
                            call_id := .str "c", output := .str "r",
                            source_line := some 1 }],
             pending := [(.str "c", 0)], merged := 1 } ∧
    (1 : Nat) + 1 =
      List.countP (fun l => keptLine l)
        ["\x7b\"type\":\"response_item\",\"payload\":\x7b\"type\":\"function_call\",\"call_id\":\"c\"\x7d\x7d",
         "\x7b\"type\":\"response_item\",\"payload\":\x7b\"type\":\"function_call_output\",\"call_id\":\"c\",\"output\":\"r\"\x7d\x7d",
         "\x7bx"] :=
  ⟨by decide,
   message_count_invariant _
     { messages := [{ timestamp := "unknown", type := .str "function_call",
                      role := .str "assistant", content := none,
                      call_id := .str "c", output := .str "r",
                      source_line := some 1 }],
       pending := [(.str "c", 0)], merged := 1 } (by decide)⟩

/-! ## Claim C9: the flag extractor -/

/-- Spec-side selection: `function_call` messages whose `name` equals the
fixed tool identifier. -/
def specSelected (m : ParsedMessage) : Bool :=
  m.type = .str "function_call" && m.name = .str vmCompileToolName

/-- Spec-side flag normalization: `arguments["flags"]` when it is a list
of strings (dropping empty string items), the default list when absent or
empty. -/
def specFlags (m : ParsedMessage) (dflt : List String) : List String :=
  match m.arguments with
  | .obj afs =>
    match dictGet afs "flags" with
    | some (.arr raw) =>
      if raw.all isStrJson then
        let fl := (raw.filterMap (fun x => match x with
          | .str s => some s
          | _ => none)).filter (fun s => s ≠ "")
        if fl.isEmpty then dflt else fl
      else dflt
    | _ => dflt
  | _ => dflt

/-- The source's per-message step agrees with the spec-side description:
a message contributes exactly when selected, and then contributes its
normalized flag list. -/
theorem callFlags_eq_spec (m : ParsedMessage) (dflt : List String) :
    callFlags m dflt =
      if specSelected m then some (specFlags m dflt) else none := by
  by_cases h1 : m.type = Json.str "function_call"
  · by_cases h2 : m.name = Json.str vmCompileToolName
    · have htru : truthy m.name = true := by rw [h2]; decide
      have hsel : specSelected m = true := by simp [specSelected, h1, h2]
      rw [if_pos hsel]
      unfold callFlags
      rw [if_neg (by simp [h1]), if_neg (by simp [htru]), if_neg (by simp [h2])]
      unfold specFlags
      cases ha : m.arguments with
      | obj afs =>
        dsimp only
        cases hfl : dictGet afs "flags" with
        | none => rfl
        | some w =>
          cases w with
          | arr raw =>
            dsimp only
            by_cases hall : raw.all isStrJson = true
            · rw [if_pos hall, if_pos hall]
            · rw [if_neg hall, if_neg hall]
          | null => rfl
          | bool b => rfl
          | num i => rfl
          | str s => rfl
          | obj ofs => rfl
      | null => rfl
      | bool b => rfl
      | num i => rfl
      | str s => rfl
      | arr xs => rfl
    · have hsel : specSelected m = false := by simp [specSelected, h2]
      rw [if_neg (by simp [hsel])]
      unfold callFlags
      rw [if_neg (by simp [h1])]
      by_cases h3 : truthy m.name = true
      · rw [if_neg (by simp [h3]), if_pos (by simp [h2])]
      · rw [if_pos (by simp [h3])]
  · have hsel : specSelected m = false := by simp [specSelected, h1]
    rw [if_neg (by simp [hsel])]
    unfold callFlags
    rw [if_pos (by simp [h1])]

/-- Membership in the dedup loop's output: everything already collected,
plus each selected message's flag list. -/
theorem extractLoop_mem (dflt : List String) (ms : List ParsedMessage) :
    ∀ (seen out : List (List String))
      (hinv : ∀ x, x ∈ seen ↔ x ∈ out) (fl : List String),
      (fl ∈ extractLoop dflt ms seen out ↔
        fl ∈ out ∨ ∃ m ∈ ms, callFlags m dflt = some fl) := by
  induction ms with
  | nil =>
    intro seen out hinv fl
    simp [extractLoop]
  | cons m ms ih =>
    intro seen out hinv fl
    unfold extractLoop
    cases hc : callFlags m dflt with
    | none =>
      dsimp only
      rw [ih seen out hinv fl]
      constructor
      · rintro (h | ⟨m2, hm2, hfl⟩)
        · exact Or.inl h
        · exact Or.inr ⟨m2, List.mem_cons_of_mem _ hm2, hfl⟩
      · rintro (h | ⟨m2, hm2, hfl⟩)
        · exact Or.inl h
        · rcases List.mem_cons.mp hm2 with rfl | hm2
          · rw [hc] at hfl; exact absurd hfl (by simp)
          · exact Or.inr ⟨m2, hm2, hfl⟩
    | some fl0 =>
      dsimp only
      by_cases hseen : fl0 ∈ seen
      · rw [if_pos hseen, ih seen out hinv fl]
        constructor
        · rintro (h | ⟨m2, hm2, hfl⟩)
          · exact Or.inl h
          · exact Or.inr ⟨m2, List.mem_cons_of_mem _ hm2, hfl⟩
        · rintro (h | ⟨m2, hm2, hfl⟩)
          · exact Or.inl h
          · rcases List.mem_cons.mp hm2 with rfl | hm2
            · rw [hc] at hfl
              cases hfl
              exact Or.inl ((hinv fl).mp hseen)
            · exact Or.inr ⟨m2, hm2, hfl⟩
      · rw [if_neg hseen]
        have hinv2 : ∀ x, x ∈ fl0 :: seen ↔ x ∈ out ++ [fl0] := by
          intro x
          simp [hinv x, or_comm]
        rw [ih (fl0 :: seen) (out ++ [fl0]) hinv2 fl]
        constructor
        · rintro (h | ⟨m2, hm2, hfl⟩)
          · rcases List.mem_append.mp h with h | h
            · exact Or.inl h
            · simp only [List.mem_singleton] at h
              exact Or.inr ⟨m, List.mem_cons_self _ _, by rw [hc, h]⟩
          · exact Or.inr ⟨m2, List.mem_cons_of_mem _ hm2, hfl⟩
        · rintro (h | ⟨m2, hm2, hfl⟩)
          · exact Or.inl (List.mem_append.mpr (Or.inl h))
          · rcases List.mem_cons.mp hm2 with rfl | hm2
            · rw [hc] at hfl
              cases hfl
              exact Or.inl (List.mem_append.mpr (Or.inr (by simp)))
            · exact Or.inr ⟨m2, hm2, hfl⟩

/-- The dedup loop never emits a flag list twice. -/
theorem extractLoop_nodup (dflt : List String) (ms : List ParsedMessage) :
    ∀ (seen out : List (List String))
      (hinv : ∀ x, x ∈ seen ↔ x ∈ out) (hnd : out.Nodup),
      (extractLoop dflt ms seen out).Nodup := by
  induction ms with
  | nil =>
    intro seen out hinv hnd
    simpa [extractLoop] using hnd
  | cons m ms ih =>
    intro seen out hinv hnd
    unfold extractLoop
    cases hc : callFlags m dflt with
    | none => exact ih seen out hinv hnd
    | some fl0 =>
      dsimp only
      by_cases hseen : fl0 ∈ seen
      · rw [if_pos hseen]
        exact ih seen out hinv hnd
      · rw [if_neg hseen]
        refine ih (fl0 :: seen) (out ++ [fl0]) (fun x => by simp [hinv x, or_comm]) ?_
        refine List.Nodup.append hnd (List.nodup_singleton fl0) ?_
        intro x hx hx2
        simp only [List.mem_singleton] at hx2
        subst hx2
        exact hseen ((hinv x).mpr hx)

/-- C9: the flag extractor returns, for any message sequence and default
flag list, a sequence that is sorted by (length, lexicographic), free of
duplicates, and whose members are exactly the normalized flag lists of
the selected `vm_compile_c_and_upload` function-call messages (the
default list substituting for absent/empty flags); in particular a call
with no `flags` argument under default `["-static"]` yields
`[["-static"]]`. -/
theorem flag_extractor_spec :
    (∀ (messages : List ParsedMessage) (default_flags : Option (List String)),
      (extract_vm_compile_c_and_upload_flags messages default_flags).Sorted flagLE ∧
      (extract_vm_compile_c_and_upload_flags messages default_flags).Nodup ∧
      (∀ fl, fl ∈ extract_vm_compile_c_and_upload_flags messages default_flags ↔
        ∃ m ∈ messages, specSelected m = true ∧
          specFlags m (default_flags.getD ["-static"]) = fl)) ∧
    extract_vm_compile_c_and_upload_flags
      [{ timestamp := "t", type := .str "function_call",
         role := .str "assistant", content := none,
         name := .str vmCompileToolName,
         arguments := .obj [("source", .str "x")] }]
      (some ["-static"]) = [["-static"]] := by
  constructor
  · intro messages default_flags
    unfold extract_vm_compile_c_and_upload_flags
    refine ⟨List.sorted_insertionSort flagLE _, ?_, ?_⟩
    · exact ((List.perm_insertionSort flagLE _).nodup_iff).mpr
        (extractLoop_nodup _ messages [] [] (by simp) List.nodup_nil)
    · intro fl
      rw [(List.perm_insertionSort flagLE _).mem_iff,
        extractLoop_mem _ messages [] [] (by simp) fl]
      simp only [List.not_mem_nil, false_or]
      constructor
      · rintro ⟨m, hm, hc⟩
        rw [callFlags_eq_spec] at hc
        by_cases hsel : specSelected m = true
        · rw [if_pos hsel] at hc
          exact ⟨m, hm, hsel, Option.some.inj hc⟩
        · rw [if_neg hsel] at hc
          exact absurd hc (by simp)
      · rintro ⟨m, hm, hsel, hfl⟩
        refine ⟨m, hm, ?_⟩
        rw [callFlags_eq_spec, if_pos hsel, hfl]
  · decide

/-! ## Claim C8: token-count summaries -/

/-- An optional usage entry. -/
def usageEntry (k : String) (o : Option Int) : List (String × Json) :=
  match o with
  | none => []
  | some v => [(k, .num v)]

/-- A usage snapshot containing exactly the present sub-fields, in the
canonical key order. -/
def mkUsage (o1 o2 o3 o4 o5 : Option Int) : List (String × Json) :=
  usageEntry "input_tokens" o1 ++ usageEntry "cached_input_tokens" o2 ++
  usageEntry "output_tokens" o3 ++ usageEntry "reasoning_output_tokens" o4 ++
  usageEntry "total_tokens" o5

/-- The `info` object of a token-count payload: both usage snapshots
(with exactly their present sub-fields) and, when present, the model
context window. -/
def mkInfo (t1 t2 t3 t4 t5 l1 l2 l3 l4 l5 : Option Int)
    (ctx : Option Int) : List (String × Json) :=
  ("total_token_usage", .obj (mkUsage t1 t2 t3 t4 t5)) ::
  ("last_token_usage", .obj (mkUsage l1 l2 l3 l4 l5)) ::
  (match ctx with
   | none => []
   | some v => [("model_context_window", .num v)])

/-- A `token_count` event payload. -/
def tokenPayload (t1 t2 t3 t4 t5 l1 l2 l3 l4 l5 : Option Int)
    (ctx : Option Int) : Json :=
  .obj [("type", .str "token_count"),
        ("info", .obj (mkInfo t1 t2 t3 t4 t5 l1 l2 l3 l4 l5 ctx))]

/-- A complete `event_msg` record of sub-kind `token_count`. -/
def tokenRecord (ts : String) (t1 t2 t3 t4 t5 l1 l2 l3 l4 l5 : Option Int)
    (ctx : Option Int) : Json :=
  .obj [("type", .str "event_msg"), ("timestamp", .str ts),
        ("payload", tokenPayload t1 t2 t3 t4 t5 l1 l2 l3 l4 l5 ctx)]

/-- Spec-side `label=value` pairs for the present sub-fields, in the
fixed label order of the specification. -/
def specUsagePairs (o1 o2 o3 o4 o5 : Option Int) : List String :=
  (match o1 with | none => [] | some v => ["in=" ++ String.mk (intRepr v)]) ++
  (match o2 with | none => [] | some v => ["cached=" ++ String.mk (intRepr v)]) ++
  (match o3 with | none => [] | some v => ["out=" ++ String.mk (intRepr v)]) ++
  (match o4 with | none => [] | some v => ["reasoning=" ++ String.mk (intRepr v)]) ++
  (match o5 with | none => [] | some v => ["total=" ++ String.mk (intRepr v)])

/-- Spec-side usage segment: the comma-joined pairs wrapped as
`tag(...)`, present only when the snapshot has a present sub-field. -/
def specUsageSeg (tag : String) (o1 o2 o3 o4 o5 : Option Int) : List String :=
  let pairs := specUsagePairs o1 o2 o3 o4 o5
  if pairs.isEmpty then []
  else [tag ++ "(" ++ String.intercalate ", " pairs ++ ")"]

/-- Spec-side context-window segment. -/
def specCtxSeg (ctx : Option Int) : List String :=
  match ctx with
  | none => []
  | some v => ["context_window=" ++ String.mk (intRepr v)]

/-- Spec-side token-count summary: the present segments joined with
`"; "`, falling back to the formatted JSON of the whole payload when no
segment is present. -/
def specTokenSummary (t1 t2 t3 t4 t5 l1 l2 l3 l4 l5 : Option Int)
    (ctx : Option Int) (payload : Json) : String :=
  let segments := specUsageSeg "total" t1 t2 t3 t4 t5 ++
    specUsageSeg "last" l1 l2 l3 l4 l5 ++ specCtxSeg ctx
  if segments.isEmpty then formatJson payload
  else String.intercalate "; " segments

/-- The source's usage-segment computation agrees with the spec-side
segment, for every presence pattern of the five sub-fields (`pre` is the
literal segment prefix, `"total("` or `"last("`). -/
theorem usage_seg_eq (pre : String) (o1 o2 o3 o4 o5 : Option Int) :
    (if truthy (orEmptyObj (.obj (mkUsage o1 o2 o3 o4 o5))) = true then
       (formatUsage (orEmptyObj (.obj (mkUsage o1 o2 o3 o4 o5)))).map
         (fun u => [pre ++ u ++ ")"])
     else some []) =
      some (if (specUsagePairs o1 o2 o3 o4 o5).isEmpty then []
            else [pre ++ String.intercalate ", " (specUsagePairs o1 o2 o3 o4 o5) ++ ")"]) := by
  cases o1 <;> cases o2 <;> cases o3 <;> cases o4 <;> cases o5 <;> rfl

/-- The source's `_summarize_token_count` agrees with the spec-side
rendering on every token-count payload of the given shape. -/
theorem summarize_token_payload (t1 t2 t3 t4 t5 l1 l2 l3 l4 l5 : Option Int)
    (ctx : Option Int) :
    summarizeTokenCount (tokenPayload t1 t2 t3 t4 t5 l1 l2 l3 l4 l5 ctx) =
      some (specTokenSummary t1 t2 t3 t4 t5 l1 l2 l3 l4 l5 ctx
        (tokenPayload t1 t2 t3 t4 t5 l1 l2 l3 l4 l5 ctx)) := by
  have hstep : summarizeTokenCount (tokenPayload t1 t2 t3 t4 t5 l1 l2 l3 l4 l5 ctx) =
      (match (if truthy (orEmptyObj (.obj (mkUsage t1 t2 t3 t4 t5))) = true then
                (formatUsage (orEmptyObj (.obj (mkUsage t1 t2 t3 t4 t5)))).map
                  (fun u => ["total(" ++ u ++ ")"])
              else some []),
             (if truthy (orEmptyObj (.obj (mkUsage l1 l2 l3 l4 l5))) = true then
                (formatUsage (orEmptyObj (.obj (mkUsage l1 l2 l3 l4 l5)))).map
                  (fun u => ["last(" ++ u ++ ")"])
              else some []) with
       | some seg1, some seg2 =>
         let seg3 :=
           match dictGet (mkInfo t1 t2 t3 t4 t5 l1 l2 l3 l4 l5 ctx)
               "model_context_window" with
           | none => []
           | some .null => []
           | some w => ["context_window=" ++ pyStr w]
         let segments := seg1 ++ seg2 ++ seg3
         some (if segments.isEmpty then
             formatJson (tokenPayload t1 t2 t3 t4 t5 l1 l2 l3 l4 l5 ctx)
           else String.intercalate "; " segments)
       | _, _ => none) := rfl
  rw [hstep, usage_seg_eq "total(" t1 t2 t3 t4 t5, usage_seg_eq "last(" l1 l2 l3 l4 l5]
  cases ctx <;> rfl

/-- C8: a `token_count` event record appends exactly one message whose
content renders, for each usage snapshot with present sub-fields, the
comma-joined `label=value` pairs wrapped as `total(...)`/`last(...)`,
appends `context_window=<value>` when present, joins the segments with
`"; "`, and falls back to the formatted JSON of the whole payload when no
segment exists; in particular a payload with only
`total_token_usage.total_tokens=500` renders exactly `"total(total=500)"`
with no `last(...)` segment. -/
theorem token_count_rendering :
    (∀ (t1 t2 t3 t4 t5 l1 l2 l3 l4 l5 : Option Int) (ctx : Option Int)
       (ts : String) (n : Nat) (st : ParseState),
      consumeRecord (tokenRecord ts t1 t2 t3 t4 t5 l1 l2 l3 l4 l5 ctx) n st =
        some (appendMsg st
          { timestamp := ts, type := .str "event:token_count", role := .null,
            content := some (specTokenSummary t1 t2 t3 t4 t5 l1 l2 l3 l4 l5 ctx
              (tokenPayload t1 t2 t3 t4 t5 l1 l2 l3 l4 l5 ctx)),
            metadata := tokenPayload t1 t2 t3 t4 t5 l1 l2 l3 l4 l5 ctx,
            source_line := some n })) ∧
    specTokenSummary none none none none (some 500) none none none none none none
      (tokenPayload none none none none (some 500) none none none none none none) =
      "total(total=500)" ∧
    specTokenSummary none none none none none none none none none none none
      (tokenPayload none none none none none none none none none none none) =
      formatJson (tokenPayload none none none none none none none none none none none) := by
  refine ⟨?_, by decide, rfl⟩
  intro t1 t2 t3 t4 t5 l1 l2 l3 l4 l5 ctx ts n st
  have hstep : consumeRecord (tokenRecord ts t1 t2 t3 t4 t5 l1 l2 l3 l4 l5 ctx) n st =
      (match summarizeTokenCount (tokenPayload t1 t2 t3 t4 t5 l1 l2 l3 l4 l5 ctx) with
       | none => none
       | some content =>
         some (appendMsg st
           { timestamp := ts, type := .str "event:token_count", role := .null,
             content := some content,
             metadata := tokenPayload t1 t2 t3 t4 t5 l1 l2 l3 l4 l5 ctx,
             source_line := some n })) := rfl
  rw [hstep, summarize_token_payload]

/-! ## Claim C3: end-to-end call/output correlation

The development below tracks one registered call through the record
stream: `consume_effect` classifies what any single record can do to the
state, and the invariants `Tracks`, `Keeps`, `UniqueLine` and `NoLine`
carry the call message (and the uniqueness of its source line) to the
end of the stream. -/

/-- Is this payload a `function_call` registering key `k`? -/
def respIsCall (p : Json) (k : Json) : Bool :=
  match p with
  | .obj pfs =>
    getField pfs "type" = .str "function_call" && getField pfs "call_id" = k
  | _ => false

/-- Is this payload a `function_call_output` whose lookup key is `k`? -/
def respIsOut (p : Json) (k : Json) : Bool :=
  match p with
  | .obj pfs =>
    getField pfs "type" = .str "function_call_output" &&
      outputLookupKey (getField pfs "call_id") = k
  | _ => false

/-- Is this record a `response_item` function call registering `k`? -/
def isCallRecordFor (r : Json) (k : Json) : Bool :=
  match r with
  | .obj fs =>
    getField fs "type" = .str "response_item" &&
      respIsCall (orEmptyObj (getField fs "payload")) k
  | _ => false

/-- Is this record a `response_item` output whose lookup key is `k`? -/
def isOutRecordFor (r : Json) (k : Json) : Bool :=
  match r with
  | .obj fs =>
    getField fs "type" = .str "response_item" &&
      respIsOut (orEmptyObj (getField fs "payload")) k
  | _ => false

/-- Effect classification for the event handler: skip or append. -/
theorem handleEventMsg_effect (p : Json) (ts : String) (n : Nat)
    (st st' : ParseState) (h : handleEventMsg p ts n st = some st') :
    st' = st ∨ ∃ m, m.source_line = some n ∧ st' = appendMsg st m := by
  cases p with
  | obj pfs =>
    simp only [handleEventMsg] at h
    revert h
    split
    · intro h
      exact Or.inl (Option.some.inj h).symm
    · split
      · split
        · intro h; exact absurd h (by simp)
        · intro h
          refine Or.inr ⟨_, ?_, (Option.some.inj h).symm⟩
          rfl
      · split
        · intro h
          refine Or.inr ⟨_, ?_, (Option.some.inj h).symm⟩
          rfl
        · split <;>
            (intro h
             refine Or.inr ⟨_, ?_, (Option.some.inj h).symm⟩
             rfl)
  | null => exact absurd h (by simp [handleEventMsg])
  | bool b => exact absurd h (by simp [handleEventMsg])
  | num i => exact absurd h (by simp [handleEventMsg])
  | str s => exact absurd h (by simp [handleEventMsg])
  | arr xs => exact absurd h (by simp [handleEventMsg])

/-- Effect classification for the response handler: skip, plain append,
registering append, or merge. -/
theorem handleResponseItem_effect (p : Json) (ts : String) (n : Nat)
    (st st' : ParseState) (h : handleResponseItem p ts n st = some st') :
    st' = st ∨
    (∃ m, m.source_line = some n ∧ st' = appendMsg st m) ∨
    (∃ m k, st'.messages = st.messages ++ [m] ∧
      st'.pending = pendSet st.pending k st.messages.length ∧
      st'.merged = st.merged ∧ m.source_line = some n ∧
      truthy k = true ∧ respIsCall p k = true) ∨
    (∃ k i v, pendGet st.pending k = some i ∧
      st'.messages = setOutputAt st.messages i v ∧
      st'.pending = st.pending ∧ st'.merged = st.merged + 1 ∧
      respIsOut p k = true) := by
  cases p with
  | obj pfs =>
    simp only [handleResponseItem] at h
    revert h
    split
    · intro h
      exact Or.inl (Option.some.inj h).symm
    · split
      · split
        · intro h; exact absurd h (by simp)
        · intro h
          refine Or.inr (Or.inl ⟨_, ?_, (Option.some.inj h).symm⟩)
          rfl
      · split
        · rename_i hsub
          split
          · rename_i htr
            split
            · rename_i hh
              intro h
              cases h
              refine Or.inr (Or.inr (Or.inl
                ⟨_, getField pfs "call_id", rfl, rfl, rfl, ?_, htr, ?_⟩))
              · rfl
              · simp [respIsCall, hsub]
            · intro h; exact absurd h (by simp)
          · intro h
            refine Or.inr (Or.inl ⟨_, ?_, (Option.some.inj h).symm⟩)
            rfl
        · split
          · rename_i h1 h2 hsub
            intro h
            cases htr : truthy (getField pfs "call_id") with
            | false =>
              simp only [htr, Bool.false_eq_true, if_false] at h
              rw [if_pos (by decide : hashable (Json.str "") = true)] at h
              rcases hpg : pendGet st.pending (.str "") with _ | i <;>
                rw [hpg] at h
              · refine Or.inr (Or.inl ⟨_, ?_, (Option.some.inj h).symm⟩)
                rfl
              · cases h
                refine Or.inr (Or.inr (Or.inr
                  ⟨.str "", i, _, hpg, rfl, rfl, rfl, ?_⟩))
                simp [respIsOut, hsub, outputLookupKey, htr]
            | true =>
              simp only [htr, if_true] at h
              cases hh : hashable (getField pfs "call_id") with
              | false =>
                rw [if_neg (by simp [hh])] at h
                exact absurd h (by simp)
              | true =>
                rw [if_pos hh] at h
                rcases hpg : pendGet st.pending (getField pfs "call_id") with _ | i <;>
                  rw [hpg] at h
                · refine Or.inr (Or.inl ⟨_, ?_, (Option.some.inj h).symm⟩)
                  rfl
                · cases h
                  refine Or.inr (Or.inr (Or.inr
                    ⟨getField pfs "call_id", i, _, hpg, rfl, rfl, rfl, ?_⟩))
                  simp [respIsOut, hsub, outputLookupKey, htr]
          · intro h
            refine Or.inr (Or.inl ⟨_, ?_, (Option.some.inj h).symm⟩)
            rfl
  | null => exact absurd h (by simp [handleResponseItem])
  | bool b => exact absurd h (by simp [handleResponseItem])
  | num i => exact absurd h (by simp [handleResponseItem])
  | str s => exact absurd h (by simp [handleResponseItem])
  | arr xs => exact absurd h (by simp [handleResponseItem])

/-- Effect classification of one record on the parser state: skip, plain
append, registering function-call append, or output merge. -/
theorem consume_effect (r : Json) (n : Nat) (st st' : ParseState)
    (h : consumeRecord r n st = some st') :
    st' = st ∨
    (∃ m, m.source_line = some n ∧ st' = appendMsg st m) ∨
    (∃ m k, st'.messages = st.messages ++ [m] ∧
      st'.pending = pendSet st.pending k st.messages.length ∧
      st'.merged = st.merged ∧ m.source_line = some n ∧
      truthy k = true ∧ isCallRecordFor r k = true) ∨
    (∃ k i v, pendGet st.pending k = some i ∧
      st'.messages = setOutputAt st.messages i v ∧
      st'.pending = st.pending ∧ st'.merged = st.merged + 1 ∧
      isOutRecordFor r k = true) := by
  cases r with
  | obj fs =>
    simp only [consumeRecord] at h
    revert h
    split
    · intro h
      exact Or.inl (Option.some.inj h).symm
    · split
      · intro h
        refine Or.inr (Or.inl ⟨_, ?_, (Option.some.inj h).symm⟩)
        rfl
      · split
        · intro h
          refine Or.inr (Or.inl ⟨_, ?_, (Option.some.inj h).symm⟩)
          rfl
        · split
          · rename_i h1 h2 hev
            intro h
            rcases handleEventMsg_effect _ _ _ _ _ h with rfl | ⟨m, hm, rfl⟩
            · exact Or.inl rfl
            · exact Or.inr (Or.inl ⟨m, hm, rfl⟩)
          · split
            · rename_i h1 h2 h3 hri
              intro h
              rcases handleResponseItem_effect _ _ _ _ _ h with
                rfl | ⟨m, hm, rfl⟩ | ⟨m, k, hmsg, hpend, hmer, hm, htr, hcall⟩ |
                ⟨k, i, v, hpg, hmsg, hpend, hmer, hout⟩
              · exact Or.inl rfl
              · exact Or.inr (Or.inl ⟨m, hm, rfl⟩)
              · refine Or.inr (Or.inr (Or.inl
                  ⟨m, k, hmsg, hpend, hmer, hm, htr, ?_⟩))
                simp [isCallRecordFor, hri, hcall]
              · refine Or.inr (Or.inr (Or.inr
                  ⟨k, i, v, hpg, hmsg, hpend, hmer, ?_⟩))
                simp [isOutRecordFor, hri, hout]
            · intro h
              refine Or.inr (Or.inl ⟨_, ?_, (Option.some.inj h).symm⟩)
              rfl
  | null => exact absurd h (by simp [consumeRecord])
  | bool b => exact absurd h (by simp [consumeRecord])
  | num i => exact absurd h (by simp [consumeRecord])
  | str s => exact absurd h (by simp [consumeRecord])
  | arr xs => exact absurd h (by simp [consumeRecord])

/-- `pendSet` then `pendGet` at the same key. -/
theorem pendGet_pendSet_self (p : List (Json × Nat)) (k : Json) (i : Nat) :
    pendGet (pendSet p k i) k = some i := by
  induction p with
  | nil => simp [pendSet, pendGet]
  | cons e rest ih =>
    obtain ⟨k0, j⟩ := e
    by_cases hk : k0 = k
    · simp [pendSet, pendGet, hk]
    · simp [pendSet, pendGet, hk, ih]

/-- `pendSet` then `pendGet` at a different key. -/
theorem pendGet_pendSet_ne (p : List (Json × Nat)) (k k2 : Json) (i : Nat)
    (h : k2 ≠ k) : pendGet (pendSet p k i) k2 = pendGet p k2 := by
  induction p with
  | nil => simp [pendSet, pendGet, Ne.symm h]
  | cons e rest ih =>
    obtain ⟨k0, j⟩ := e
    by_cases hk : k0 = k
    · subst hk
      simp [pendSet, pendGet, Ne.symm h]
    · simp only [pendSet, if_neg hk, pendGet]
      by_cases hk2 : k0 = k2
      · simp [hk2]
      · simp [hk2, ih]

/-- Indices stored in the correlation map always point into `messages`. -/
def PendBound (st : ParseState) : Prop :=
  ∀ k i, pendGet st.pending k = some i → i < st.messages.length

/-- The map registers `c` at index `i0`, the message there is `msg`, and
no other key points at `i0`. -/
def Tracks (c : String) (i0 : Nat) (msg : ParsedMessage) (st : ParseState) : Prop :=
  pendGet st.pending (.str c) = some i0 ∧ i0 < st.messages.length ∧
  st.messages.getD i0 dummyMsg = msg ∧
  ∀ k, k ≠ .str c → pendGet st.pending k ≠ some i0

/-- The message at `i0` is `msg` and only key `c` can point at `i0`. -/
def Keeps (c : String) (i0 : Nat) (msg : ParsedMessage) (st : ParseState) : Prop :=
  i0 < st.messages.length ∧ st.messages.getD i0 dummyMsg = msg ∧
  ∀ k, pendGet st.pending k = some i0 → k = .str c

/-- No message other than the one at `i0` carries source line `x`. -/
def UniqueLine (st : ParseState) (i0 x : Nat) : Prop :=
  ∀ j, j ≠ i0 → (st.messages.getD j dummyMsg).source_line ≠ some x

/-- No message at all carries source line `x`. -/
def NoLine (st : ParseState) (x : Nat) : Prop :=
  ∀ j, (st.messages.getD j dummyMsg).source_line ≠ some x

/-- All source lines are below `n` (the next line number to process). -/
def SrcBelow (st : ParseState) (n : Nat) : Prop :=
  ∀ j x, n ≤ x → (st.messages.getD j dummyMsg).source_line ≠ some x

/-- Merging an output never changes any message's source line. -/
theorem setOutputAt_sourceLine (ms : List ParsedMessage) (i : Nat) (v : Json)
    (j : Nat) :
    ((setOutputAt ms i v).getD j dummyMsg).source_line =
      (ms.getD j dummyMsg).source_line := by
  by_cases hi : i < ms.length
  · by_cases hj : j = i
    · subst hj
      rw [setOutputAt_getD_self _ _ _ hi]
    · rw [setOutputAt_getD_ne _ _ _ _ hj]
  · unfold setOutputAt
    rw [List.set_eq_of_length_le (by omega)]

/-- Appending a message: `getD` below the old length is unchanged. -/
theorem getD_append_lt (ms : List ParsedMessage) (m : ParsedMessage)
    (j : Nat) (h : j < ms.length) :
    (ms ++ [m]).getD j dummyMsg = ms.getD j dummyMsg :=
  List.getD_append _ _ _ _ h

/-- Appending a message: `getD` at the old length is the new message. -/
theorem getD_append_self (ms : List ParsedMessage) (m : ParsedMessage) :
    (ms ++ [m]).getD ms.length dummyMsg = m := by
  simp [List.getD_eq_getElem?_getD, List.getElem?_append_right]

/-- One consumed record preserves the pending-index bound. -/
theorem PendBound_step (r : Json) (n : Nat) (st st' : ParseState)
    (h : consumeRecord r n st = some st') (hp : PendBound st) : PendBound st' := by
  rcases consume_effect r n st st' h with rfl | ⟨m, hm, rfl⟩ |
    ⟨m, k, hmsg, hpend, hmer, hm, htr, hcall⟩ | ⟨k, i, v, hpg, hmsg, hpend, hmer, hout⟩
  · exact hp
  · intro k i hk
    have := hp k i hk
    simp [appendMsg]
    omega
  · intro k2 i hk2
    rw [hpend] at hk2
    rw [hmsg]
    by_cases hkk : k2 = k
    · subst hkk
      rw [pendGet_pendSet_self] at hk2
      cases hk2
      simp
    · rw [pendGet_pendSet_ne _ _ _ _ hkk] at hk2
      have := hp k2 i hk2
      simp
      omega
  · intro k2 i2 hk2
    rw [hpend] at hk2
    rw [hmsg, setOutputAt_length]
    exact hp k2 i2 hk2

/-- One consumed record that neither registers a call for `c` nor merges
an output for `c` preserves `Tracks`. -/
theorem Tracks_step (r : Json) (n : Nat) (st st' : ParseState)
    (c : String) (i0 : Nat) (msg : ParsedMessage)
    (h : consumeRecord r n st = some st')
    (hreg : isCallRecordFor r (.str c) = false)
    (hout : isOutRecordFor r (.str c) = false)
    (ht : Tracks c i0 msg st) : Tracks c i0 msg st' := by
  obtain ⟨hpg, hlt, hmsg0, hcol⟩ := ht
  rcases consume_effect r n st st' h with rfl | ⟨m, hm, rfl⟩ |
    ⟨m, k, hmsg, hpend, hmer, hm, htr, hcall⟩ | ⟨k, i, v, hpgk, hmsg, hpend, hmer, houtk⟩
  · exact ⟨hpg, hlt, hmsg0, hcol⟩
  · refine ⟨hpg, ?_, ?_, hcol⟩
    · simp [appendMsg]; omega
    · show (st.messages ++ [m]).getD i0 dummyMsg = msg
      rw [getD_append_lt _ _ _ hlt]
      exact hmsg0
  · have hkc : k ≠ .str c := by
      intro hkk
      subst hkk
      rw [hcall] at hreg
      cases hreg
    refine ⟨?_, ?_, ?_, ?_⟩
    · rw [hpend, pendGet_pendSet_ne _ _ _ _ (fun hh => hkc hh.symm)]
      exact hpg
    · rw [hmsg]; simp; omega
    · rw [hmsg, getD_append_lt _ _ _ hlt]; exact hmsg0
    · intro k2 hk2
      rw [hpend]
      by_cases hkk : k2 = k
      · subst hkk
        rw [pendGet_pendSet_self]
        intro hh
        cases hh
        omega
      · rw [pendGet_pendSet_ne _ _ _ _ hkk]
        exact hcol k2 hk2
  · have hii : i ≠ i0 := by
      intro hii
      subst hii
      by_cases hkc : k = .str c
      · subst hkc
        rw [houtk] at hout
        cases hout
      · exact hcol k hkc hpgk
    refine ⟨?_, ?_, ?_, ?_⟩
    · rw [hpend]; exact hpg
    · rw [hmsg, setOutputAt_length]; exact hlt
    · rw [hmsg, setOutputAt_getD_ne _ _ _ _ (fun hh => hii hh.symm)]
      exact hmsg0
    · intro k2 hk2
      rw [hpend]
      exact hcol k2 hk2

/-- One consumed record that merges no output for `c` preserves `Keeps`. -/
theorem Keeps_step (r : Json) (n : Nat) (st st' : ParseState)
    (c : String) (i0 : Nat) (msg : ParsedMessage)
    (h : consumeRecord r n st = some st')
    (hout : isOutRecordFor r (.str c) = false)
    (hk : Keeps c i0 msg st) : Keeps c i0 msg st' := by
  obtain ⟨hlt, hmsg0, honly⟩ := hk
  rcases consume_effect r n st st' h with rfl | ⟨m, hm, rfl⟩ |
    ⟨m, k, hmsg, hpend, hmer, hm, htr, hcall⟩ | ⟨k, i, v, hpgk, hmsg, hpend, hmer, houtk⟩
  · exact ⟨hlt, hmsg0, honly⟩
  · refine ⟨by simp [appendMsg]; omega, ?_, honly⟩
    show (st.messages ++ [m]).getD i0 dummyMsg = msg
    rw [getD_append_lt _ _ _ hlt]
    exact hmsg0
  · refine ⟨by rw [hmsg]; simp; omega,
      by rw [hmsg, getD_append_lt _ _ _ hlt]; exact hmsg0, ?_⟩
    intro k2 hk2
    rw [hpend] at hk2
    by_cases hkk : k2 = k
    · subst hkk
      rw [pendGet_pendSet_self] at hk2
      cases hk2
      omega
    · rw [pendGet_pendSet_ne _ _ _ _ hkk] at hk2
      exact honly k2 hk2
  · have hii : i ≠ i0 := by
      intro hii
      subst hii
      have := honly k hpgk
      subst this
      rw [houtk] at hout
      cases hout
    refine ⟨by rw [hmsg, setOutputAt_length]; exact hlt,
      by rw [hmsg, setOutputAt_getD_ne _ _ _ _ (fun hh => hii hh.symm)]; exact hmsg0, ?_⟩
    intro k2 hk2
    rw [hpend] at hk2
    exact honly k2 hk2

/-- One consumed record at a line other than `x` preserves `UniqueLine`. -/
theorem UniqueLine_step (r : Json) (n : Nat) (st st' : ParseState)
    (i0 x : Nat) (h : consumeRecord r n st = some st') (hn : n ≠ x)
    (hu : UniqueLine st i0 x) : UniqueLine st' i0 x := by
  rcases consume_effect r n st st' h with rfl | ⟨m, hm, rfl⟩ |
    ⟨m, k, hmsg, hpend, hmer, hm, htr, hcall⟩ | ⟨k, i, v, hpgk, hmsg, hpend, hmer, houtk⟩
  · exact hu
  · intro j hj
    show ((st.messages ++ [m]).getD j dummyMsg).source_line ≠ some x
    rcases Nat.lt_trichotomy j st.messages.length with hlt | heq | hgt
    · rw [getD_append_lt _ _ _ hlt]
      exact hu j hj
    · subst heq
      rw [getD_append_self]
      rw [hm]
      simpa using hn
    · rw [List.getD_eq_default _ _ (by simp; omega)]
      simp [dummyMsg]
  · intro j hj
    rw [hmsg]
    rcases Nat.lt_trichotomy j st.messages.length with hlt | heq | hgt
    · rw [getD_append_lt _ _ _ hlt]
      exact hu j hj
    · subst heq
      rw [getD_append_self, hm]
      simpa using hn
    · rw [List.getD_eq_default _ _ (by simp; omega)]
      simp [dummyMsg]
  · intro j hj
    rw [hmsg, setOutputAt_sourceLine]
    exact hu j hj

/-- One consumed record at a line other than `x` preserves `NoLine`. -/
theorem NoLine_step (r : Json) (n : Nat) (st st' : ParseState)
    (x : Nat) (h : consumeRecord r n st = some st') (hn : n ≠ x)
    (hnl : NoLine st x) : NoLine st' x := by
  rcases consume_effect r n st st' h with rfl | ⟨m, hm, rfl⟩ |
    ⟨m, k, hmsg, hpend, hmer, hm, htr, hcall⟩ | ⟨k, i, v, hpgk, hmsg, hpend, hmer, houtk⟩
  · exact hnl
  · intro j
    show ((st.messages ++ [m]).getD j dummyMsg).source_line ≠ some x
    rcases Nat.lt_trichotomy j st.messages.length with hlt | heq | hgt
    · rw [getD_append_lt _ _ _ hlt]
      exact hnl j
    · subst heq
      rw [getD_append_self, hm]
      simpa using hn
    · rw [List.getD_eq_default _ _ (by simp; omega)]
      simp [dummyMsg]
  · intro j
    rw [hmsg]
    rcases Nat.lt_trichotomy j st.messages.length with hlt | heq | hgt
    · rw [getD_append_lt _ _ _ hlt]
      exact hnl j
    · subst heq
      rw [getD_append_self, hm]
      simpa using hn
    · rw [List.getD_eq_default _ _ (by simp; omega)]
      simp [dummyMsg]
  · intro j
    rw [hmsg, setOutputAt_sourceLine]
    exact hnl j

/-- One consumed record at line `n` turns `SrcBelow n` into
`SrcBelow (n+1)`. -/
theorem SrcBelow_step (r : Json) (n : Nat) (st st' : ParseState)
    (h : consumeRecord r n st = some st') (hs : SrcBelow st n) :
    SrcBelow st' (n + 1) := by
  rcases consume_effect r n st st' h with rfl | ⟨m, hm, rfl⟩ |
    ⟨m, k, hmsg, hpend, hmer, hm, htr, hcall⟩ | ⟨k, i, v, hpgk, hmsg, hpend, hmer, houtk⟩
  · intro j x hx
    exact hs j x (by omega)
  · intro j x hx
    show ((st.messages ++ [m]).getD j dummyMsg).source_line ≠ some x
    rcases Nat.lt_trichotomy j st.messages.length with hlt | heq | hgt
    · rw [getD_append_lt _ _ _ hlt]
      exact hs j x (by omega)
    · subst heq
      rw [getD_append_self, hm]
      intro hh
      cases hh
      omega
    · rw [List.getD_eq_default _ _ (by simp; omega)]
      simp [dummyMsg]
  · intro j x hx
    rw [hmsg]
    rcases Nat.lt_trichotomy j st.messages.length with hlt | heq | hgt
    · rw [getD_append_lt _ _ _ hlt]
      exact hs j x (by omega)
    · subst heq
      rw [getD_append_self, hm]
      intro hh
      cases hh
      omega
    · rw [List.getD_eq_default _ _ (by simp; omega)]
      simp [dummyMsg]
  · intro j x hx
    rw [hmsg, setOutputAt_sourceLine]
    exact hs j x (by omega)

/-- Record processing splits along a concatenation. -/
theorem processRecords_append (xs ys : List Json) :
    ∀ (st : ParseState) (n : Nat),
      processRecords st n (xs ++ ys) =
        (processRecords st n xs).bind
          (fun st1 => processRecords st1 (n + xs.length) ys) := by
  induction xs with
  | nil => intro st n; simp [processRecords]
  | cons r rs ih =>
    intro st n
    show (match consumeRecord r n st with
          | none => none
          | some st1 => processRecords st1 (n + 1) (rs ++ ys)) = _
    cases hc : consumeRecord r n st with
    | none => simp [processRecords, hc]
    | some st1 =>
      dsimp only
      rw [ih st1 (n + 1)]
      rw [show processRecords st n (r :: rs) = processRecords st1 (n + 1) rs from by
        show (match consumeRecord r n st with
              | none => none
              | some st2 => processRecords st2 (n + 1) rs) = _
        rw [hc]]
      have harith : n + 1 + rs.length = n + (r :: rs).length := by
        simp
        omega
      rw [harith]

/-- `PendBound` survives a record stream. -/
theorem processRecords_pendBound (rs : List Json) :
    ∀ (st : ParseState) (n : Nat) (st' : ParseState),
      processRecords st n rs = some st' → PendBound st → PendBound st' := by
  induction rs with
  | nil => intro st n st' h hp; cases h; exact hp
  | cons r rest ih =>
    intro st n st' h hp
    revert h
    show (match consumeRecord r n st with
          | none => none
          | some st1 => processRecords st1 (n + 1) rest) = some st' → _
    cases hc : consumeRecord r n st with
    | none => intro h; exact absurd h (by simp)
    | some st1 =>
      intro h
      exact ih st1 (n + 1) st' h (PendBound_step r n st st1 hc hp)

/-- `SrcBelow` survives a record stream, advancing with the line number. -/
theorem processRecords_srcBelow (rs : List Json) :
    ∀ (st : ParseState) (n : Nat) (st' : ParseState),
      processRecords st n rs = some st' → SrcBelow st n →
      SrcBelow st' (n + rs.length) := by
  induction rs with
  | nil => intro st n st' h hp; cases h; simpa using hp
  | cons r rest ih =>
    intro st n st' h hp
    revert h
    show (match consumeRecord r n st with
          | none => none
          | some st1 => processRecords st1 (n + 1) rest) = some st' → _
    cases hc : consumeRecord r n st with
    | none => intro h; exact absurd h (by simp)
    | some st1 =>
      intro h
      have := ih st1 (n + 1) st' h (SrcBelow_step r n st st1 hc hp)
      intro j x hx
      exact this j x (by simp at hx ⊢; omega)

/-- `Tracks` survives a stream with no registration and no output for `c`. -/
theorem processRecords_tracks (rs : List Json) :
    ∀ (st : ParseState) (n : Nat) (st' : ParseState)
      (c : String) (i0 : Nat) (msg : ParsedMessage),
      processRecords st n rs = some st' →
      (∀ r ∈ rs, isCallRecordFor r (.str c) = false ∧
        isOutRecordFor r (.str c) = false) →
      Tracks c i0 msg st → Tracks c i0 msg st' := by
  induction rs with
  | nil => intro st n st' c i0 msg h _ ht; cases h; exact ht
  | cons r rest ih =>
    intro st n st' c i0 msg h hrs ht
    revert h
    show (match consumeRecord r n st with
          | none => none
          | some st1 => processRecords st1 (n + 1) rest) = some st' → _
    cases hc : consumeRecord r n st with
    | none => intro h; exact absurd h (by simp)
    | some st1 =>
      intro h
      have h0 := hrs r (List.mem_cons_self _ _)
      exact ih st1 (n + 1) st' c i0 msg h
        (fun r2 hr2 => hrs r2 (List.mem_cons_of_mem _ hr2))
        (Tracks_step r n st st1 c i0 msg hc h0.1 h0.2 ht)

/-- `Keeps` survives a stream with no output for `c`. -/
theorem processRecords_keeps (rs : List Json) :
    ∀ (st : ParseState) (n : Nat) (st' : ParseState)
      (c : String) (i0 : Nat) (msg : ParsedMessage),
      processRecords st n rs = some st' →
      (∀ r ∈ rs, isOutRecordFor r (.str c) = false) →
      Keeps c i0 msg st → Keeps c i0 msg st' := by
  induction rs with
  | nil => intro st n st' c i0 msg h _ hk; cases h; exact hk
  | cons r rest ih =>
    intro st n st' c i0 msg h hrs hk
    revert h
    show (match consumeRecord r n st with
          | none => none
          | some st1 => processRecords st1 (n + 1) rest) = some st' → _
    cases hc : consumeRecord r n st with
    | none => intro h; exact absurd h (by simp)
    | some st1 =>
      intro h
      exact ih st1 (n + 1) st' c i0 msg h
        (fun r2 hr2 => hrs r2 (List.mem_cons_of_mem _ hr2))
        (Keeps_step r n st st1 c i0 msg hc (hrs r (List.mem_cons_self _ _)) hk)

/-- `UniqueLine` survives a stream whose line numbers are all above `x`. -/
theorem processRecords_uniqueLine (rs : List Json) :
    ∀ (st : ParseState) (n : Nat) (st' : ParseState) (i0 x : Nat),
      processRecords st n rs = some st' → x < n →
      UniqueLine st i0 x → UniqueLine st' i0 x := by
  induction rs with
  | nil => intro st n st' i0 x h _ hu; cases h; exact hu
  | cons r rest ih =>
    intro st n st' i0 x h hx hu
    revert h
    show (match consumeRecord r n st with
          | none => none
          | some st1 => processRecords st1 (n + 1) rest) = some st' → _
    cases hc : consumeRecord r n st with
    | none => intro h; exact absurd h (by simp)
    | some st1 =>
      intro h
      exact ih st1 (n + 1) st' i0 x h (by omega)
        (UniqueLine_step r n st st1 i0 x hc (by omega) hu)

/-- `NoLine` survives a stream whose line numbers are all above `x`. -/
theorem processRecords_noLine (rs : List Json) :
    ∀ (st : ParseState) (n : Nat) (st' : ParseState) (x : Nat),
      processRecords st n rs = some st' → x < n →
      NoLine st x → NoLine st' x := by
  induction rs with
  | nil => intro st n st' x h _ hn; cases h; exact hn
  | cons r rest ih =>
    intro st n st' x h hx hn
    revert h
    show (match consumeRecord r n st with
          | none => none
          | some st1 => processRecords st1 (n + 1) rest) = some st' → _
    cases hc : consumeRecord r n st with
    | none => intro h; exact absurd h (by simp)
    | some st1 =>
      intro h
      exact ih st1 (n + 1) st' x h (by omega)
        (NoLine_step r n st st1 x hc (by omega) hn)

/-- The message built for a `function_call` response item. -/
def callMsgOf (fs pfs : List (String × Json)) (n : Nat) : ParsedMessage :=
  { timestamp := recordTimestamp fs, type := .str "function_call",
    role := .str "assistant", name := getField pfs "name",
    call_id := getField pfs "call_id",
    arguments := maybeParseJson (getField pfs "arguments"),
    content := none, source_line := some n }

/-- Unfolding lemma: a `function_call` response item with a truthy,
hashable `call_id` appends its message and registers the id at the
message's index. -/
theorem consumeRecord_call_branch
    (fs pfs : List (String × Json)) (n : Nat) (st : ParseState)
    (hrec : getField fs "type" = .str "response_item")
    (hpay : orEmptyObj (getField fs "payload") = .obj pfs)
    (hsub : getField pfs "type" = .str "function_call")
    (htr : truthy (getField pfs "call_id") = true)
    (hhash : hashable (getField pfs "call_id") = true) :
    consumeRecord (.obj fs) n st =
      some { messages := st.messages ++ [callMsgOf fs pfs n],
             pending := pendSet st.pending (getField pfs "call_id")
               st.messages.length,
             merged := st.merged } := by
  simp [consumeRecord, hrec, hpay, handleResponseItem, hsub, htr, hhash,
    ignoredRecordTypes, ignoredResponseSubtypes, appendMsg, callMsgOf]

/-- C3 (amended): in a record stream `pre ++ [call] ++ mid ++ [out] ++ post`
where `call` is a `function_call` response item with non-empty string
`call_id` `c`, `out` is a `function_call_output` with the same `call_id`,
no record of `mid` re-registers `c`, and `out` is the only
`function_call_output` for `c` in the whole stream, the final sequence
holds exactly one message for the pair: the call message — at the call
record's line, with `name` and `arguments` preserved from the call — now
carrying the normalized output value; and no message at all stems from
the output record's line. -/
theorem call_output_correlation
    (pre mid post : List Json) (cfs cpfs ofs opfs : List (String × Json))
    (c : String) (st' : ParseState)
    (hc : c ≠ "")
    (hcr1 : getField cfs "type" = .str "response_item")
    (hcr2 : orEmptyObj (getField cfs "payload") = .obj cpfs)
    (hcr3 : getField cpfs "type" = .str "function_call")
    (hcr4 : getField cpfs "call_id" = .str c)
    (hor1 : getField ofs "type" = .str "response_item")
    (hor2 : orEmptyObj (getField ofs "payload") = .obj opfs)
    (hor3 : getField opfs "type" = .str "function_call_output")
    (hor4 : getField opfs "call_id" = .str c)
    (hpre : ∀ r ∈ pre, isOutRecordFor r (.str c) = false)
    (hmid : ∀ r ∈ mid, isCallRecordFor r (.str c) = false ∧
      isOutRecordFor r (.str c) = false)
    (hpost : ∀ r ∈ post, isOutRecordFor r (.str c) = false)
    (hrun : processRecords initState 1
      (pre ++ .obj cfs :: (mid ++ .obj ofs :: post)) = some st') :
    ∃ i0, i0 < st'.messages.length ∧
      st'.messages.getD i0 dummyMsg =
        { timestamp := recordTimestamp cfs, type := .str "function_call",
          role := .str "assistant", name := getField cpfs "name",
          call_id := .str c,
          arguments := maybeParseJson (getField cpfs "arguments"),
          content := none,
          output := maybeParseJson (getField opfs "output"),
          metadata := .null, source_line := some (1 + pre.length) } ∧
      (∀ j, j ≠ i0 →
        (st'.messages.getD j dummyMsg).source_line ≠ some (1 + pre.length)) ∧
      (∀ j, (st'.messages.getD j dummyMsg).source_line ≠
        some (1 + pre.length + 1 + mid.length)) := by
  have htrc : truthy (.str c) = true := by
    simp [truthy]
    exact hc
  -- split off pre
  rw [processRecords_append] at hrun
  cases hpre1 : processRecords initState 1 pre with
  | none => rw [hpre1] at hrun; exact absurd hrun (by simp)
  | some st1 =>
    rw [hpre1] at hrun
    simp only [Option.some_bind] at hrun
    have hb1 : PendBound st1 := by
      refine processRecords_pendBound pre initState 1 st1 hpre1 ?_
      intro k i hki
      simp [initState, pendGet] at hki
    have hs1 : SrcBelow st1 (1 + pre.length) := by
      have := processRecords_srcBelow pre initState 1 st1 hpre1 ?_
      · intro j x hx
        exact this j x (by omega)
      · intro j x hx
        simp [initState, dummyMsg]
    -- the call record
    set n0 := 1 + pre.length with hn0
    set i0 := st1.messages.length with hi0
    have hcallstep : consumeRecord (.obj cfs) n0 st1 =
        some { messages := st1.messages ++ [callMsgOf cfs cpfs n0],
               pending := pendSet st1.pending (.str c) i0,
               merged := st1.merged } := by
      have := consumeRecord_call_branch cfs cpfs n0 st1 hcr1 hcr2 hcr3
        (by rw [hcr4]; exact htrc) (by rw [hcr4]; rfl)
      rw [hcr4] at this
      exact this
    set st2 : ParseState :=
      { messages := st1.messages ++ [callMsgOf cfs cpfs n0],
        pending := pendSet st1.pending (.str c) i0,
        merged := st1.merged } with hst2
    have hstep2 : processRecords st1 n0 (.obj cfs :: (mid ++ .obj ofs :: post)) =
        processRecords st2 (n0 + 1) (mid ++ .obj ofs :: post) := by
      show (match consumeRecord (Json.obj cfs) n0 st1 with
            | none => none
            | some s => processRecords s (n0 + 1) (mid ++ Json.obj ofs :: post)) = _
      rw [hcallstep, hst2]
    rw [hstep2] at hrun
    have htr2 : Tracks c i0 (callMsgOf cfs cpfs n0) st2 := by
      refine ⟨pendGet_pendSet_self _ _ _, by simp [hst2], ?_, ?_⟩
      · show (st1.messages ++ [callMsgOf cfs cpfs n0]).getD i0 dummyMsg = _
        exact getD_append_self _ _
      · intro k hk
        show pendGet (pendSet st1.pending (.str c) i0) k ≠ some i0
        rw [pendGet_pendSet_ne _ _ _ _ hk]
        intro hkk
        have := hb1 k i0 hkk
        omega
    have hu2 : UniqueLine st2 i0 n0 := by
      intro j hj
      show ((st1.messages ++ [callMsgOf cfs cpfs n0]).getD j dummyMsg).source_line ≠ _
      rcases Nat.lt_trichotomy j i0 with hlt | heq | hgt
      · rw [getD_append_lt _ _ _ hlt]
        exact hs1 j n0 (le_refl _)
      · exact absurd heq hj
      · rw [List.getD_eq_default _ _ (by simp [hi0]; omega)]
        simp [dummyMsg]
    have hsb2 : SrcBelow st2 (n0 + 1) :=
      SrcBelow_step _ _ _ _ hcallstep hs1
    -- split off mid
    rw [processRecords_append] at hrun
    cases hmid1 : processRecords st2 (n0 + 1) mid with
    | none => rw [hmid1] at hrun; exact absurd hrun (by simp)
    | some st3 =>
      rw [hmid1] at hrun
      simp only [Option.some_bind] at hrun
      have htr3 : Tracks c i0 (callMsgOf cfs cpfs n0) st3 :=
        processRecords_tracks mid st2 (n0 + 1) st3 c i0 _ hmid1 hmid htr2
      have hu3 : UniqueLine st3 i0 n0 :=
        processRecords_uniqueLine mid st2 (n0 + 1) st3 i0 n0 hmid1 (by omega) hu2
      have hsb3 : SrcBelow st3 (n0 + 1 + mid.length) :=
        processRecords_srcBelow mid st2 (n0 + 1) st3 hmid1 hsb2
      set n1 := n0 + 1 + mid.length with hn1
      obtain ⟨hpg3, hlt3, hmsg3, hcol3⟩ := htr3
      -- the output record
      have houtstep : consumeRecord (.obj ofs) n1 st3 =
          some { st3 with
            messages := setOutputAt st3.messages i0
              (maybeParseJson (getField opfs "output")),
            merged := st3.merged + 1 } := by
        have := consumeRecord_output_branch ofs opfs n1 st3 hor1 hor2 hor3
          (by rw [hor4]; simp [outputLookupKey, htrc, hashable])
        rw [hor4] at this
        rw [show outputLookupKey (.str c) = .str c from by
          simp [outputLookupKey, htrc]] at this
        rw [hpg3] at this
        exact this
      set st4 : ParseState :=
        { st3 with
          messages := setOutputAt st3.messages i0
            (maybeParseJson (getField opfs "output")),
          merged := st3.merged + 1 } with hst4
      have hstep4 : processRecords st3 n1 (.obj ofs :: post) =
          processRecords st4 (n1 + 1) post := by
        show (match consumeRecord (Json.obj ofs) n1 st3 with
              | none => none
              | some s => processRecords s (n1 + 1) post) = _
        rw [houtstep, hst4]
      rw [hstep4] at hrun
      have hk4 : Keeps c i0
          { callMsgOf cfs cpfs n0 with
            output := maybeParseJson (getField opfs "output") } st4 := by
        refine ⟨?_, ?_, ?_⟩
        · show i0 < (setOutputAt st3.messages i0 _).length
          rw [setOutputAt_length]
          exact hlt3
        · show (setOutputAt st3.messages i0 _).getD i0 dummyMsg = _
          rw [setOutputAt_getD_self _ _ _ hlt3, hmsg3]
        · intro k hk
          by_contra hkc
          exact hcol3 k hkc hk
      have hu4 : UniqueLine st4 i0 n0 :=
        UniqueLine_step _ _ _ _ _ _ houtstep (by omega) hu3
      have hnl4 : NoLine st4 n1 := by
        intro j
        show ((setOutputAt st3.messages i0 _).getD j dummyMsg).source_line ≠ _
        rw [setOutputAt_sourceLine]
        exact hsb3 j n1 (le_refl _)
      -- post
      have hk' : Keeps c i0
          { callMsgOf cfs cpfs n0 with
            output := maybeParseJson (getField opfs "output") } st' :=
        processRecords_keeps post st4 (n1 + 1) st' c i0 _ hrun hpost hk4
      have hu' : UniqueLine st' i0 n0 :=
        processRecords_uniqueLine post st4 (n1 + 1) st' i0 n0 hrun (by omega) hu4
      have hnl' : NoLine st' n1 :=
        processRecords_noLine post st4 (n1 + 1) st' n1 hrun (by omega) hnl4
      obtain ⟨hlen', hmsg', _⟩ := hk'
      refine ⟨i0, hlen', ?_, hu', hnl'⟩
      rw [hmsg']
      simp [callMsgOf, hcr4]

/-- The §8 scenario call record's fields. -/
def scCallPayloadFields : List (String × Json) :=
  [("type", .str "function_call"), ("call_id", .str "c1"),
   ("name", .str "run"),
   ("arguments", .str "\x7b\"flags\":[\"-O2\"]\x7d")]

/-- The §8 scenario call record. -/
def scCallFields : List (String × Json) :=
  [("type", .str "response_item"), ("payload", .obj scCallPayloadFields)]

/-- The §8 scenario output record's fields. -/
def scOutPayloadFields : List (String × Json) :=
  [("type", .str "function_call_output"), ("call_id", .str "c1"),
   ("output", .str "\x7b\"code\":0\x7d")]

/-- The §8 scenario output record. -/
def scOutFields : List (String × Json) :=
  [("type", .str "response_item"), ("payload", .obj scOutPayloadFields)]

/-- The merged message of the §8 scenario: double-encoded arguments and
output decoded, one single message. -/
def scMergedMsg : ParsedMessage :=
  { timestamp := "unknown", type := .str "function_call",
    role := .str "assistant", name := .str "run", call_id := .str "c1",
    arguments := .obj [("flags", .arr [.str "-O2"])], content := none,
    output := .obj [("code", .num 0)], metadata := .null,
    source_line := some 1 }

/-- The final parser state of the §8 scenario. -/
def scFinalState : ParseState :=
  { messages := [scMergedMsg], pending := [(.str "c1", 0)], merged := 1 }

set_option maxRecDepth 8192 in
/-- Witness for C3 (amended), at the §8 scenario: the call with
double-encoded arguments followed by its output yields the single merged
message with `arguments = obj [("flags", ["-O2"])]` and
`output = obj [("code", 0)]`. -/
theorem call_output_correlation_witness :
    ∃ i0, i0 < scFinalState.messages.length ∧
      scFinalState.messages.getD i0 dummyMsg = scMergedMsg ∧
      (∀ j, j ≠ i0 →
        (scFinalState.messages.getD j dummyMsg).source_line ≠ some 1) ∧
      (∀ j, (scFinalState.messages.getD j dummyMsg).source_line ≠ some 2) :=
  call_output_correlation [] [] [] scCallFields scCallPayloadFields
    scOutFields scOutPayloadFields "c1" scFinalState
    (by decide) (by decide) (by decide) (by decide) (by decide)
    (by decide) (by decide) (by decide) (by decide)
    (fun r hr => absurd hr (List.not_mem_nil r))
    (fun r hr => absurd hr (List.not_mem_nil r))
    (fun r hr => absurd hr (List.not_mem_nil r))
    (by decide)

/-- Counterexample to C3 as stated: a `function_call` for `c2` is
followed by the first `function_call_output` for `c2` (value `"a"`), but
a later duplicate output (value `"b"`) re-merges — the identifier is
never un-registered — so the pair's single message ends with output
`"b"`, not the first output's normalized value `"a"`. -/
theorem later_duplicate_output_changes_merged_value :
    (processRecords initState 1
      [.obj [("type", .str "response_item"),
             ("payload", .obj [("type", .str "function_call"),
                               ("call_id", .str "c2"), ("name", .str "f")])],
       .obj [("type", .str "response_item"),
             ("payload", .obj [("type", .str "function_call_output"),
                               ("call_id", .str "c2"), ("output", .str "a")])],
       .obj [("type", .str "response_item"),
             ("payload", .obj [("type", .str "function_call_output"),
                               ("call_id", .str "c2"), ("output", .str "b")])]]).map
      (fun st => st.messages.map (fun m => (m.output, m.source_line))) =
      some [(.str "b", some 1)] := by
  decide

/-! ## C7: round-trip of `_format_json` and `json.loads`

A `Json` value is the image of a Python structured payload exactly when
every object in it has duplicate-free keys (a Python `dict` cannot hold
the same key twice); `wfJson` states that condition recursively. -/

/-- Keys of an association list are pairwise distinct (each key differs
from all later keys). -/
def keysFresh : List (String × Json) → Bool
  | [] => true
  | g :: gs => gs.all (fun q => q.1 != g.1) && keysFresh gs

mutual
/-- The value is the image of a Python structured payload: every object
has duplicate-free keys, recursively. -/
def wfJson : Json → Bool
  | .null => true
  | .bool _ => true
  | .num _ => true
  | .str _ => true
  | .arr xs => wfItems xs
  | .obj fs => keysFresh fs && wfFields fs

/-- All array items are well-formed. -/
def wfItems : List Json → Bool
  | [] => true
  | x :: xs => wfJson x && wfItems xs

/-- All object entry values are well-formed. -/
def wfFields : List (String × Json) → Bool
  | [] => true
  | (_, v) :: gs => wfJson v && wfFields gs
end

mutual
/-- Fuel sufficient for `parseVal` to parse the rendering of a value. -/
def neededV : Json → Nat
  | .null => 1
  | .bool _ => 1
  | .num _ => 1
  | .str _ => 1
  | .arr xs => 1 + neededItems xs
  | .obj fs => 1 + neededFields fs

/-- Fuel sufficient for `parseArrItems` on the rendered items. -/
def neededItems : List Json → Nat
  | [] => 1
  | x :: xs => 1 + max (neededV x) (neededItems xs)

/-- Fuel sufficient for `parseObjFields` on the rendered entries. -/
def neededFields : List (String × Json) → Nat
  | [] => 1
  | (_, v) :: gs => 1 + max (neededV v) (neededFields gs)
end

/-- The rendering of the items after the first one: each preceded by
`",\n"` and its indentation. -/
def itemsRest : List Json → Nat → List Char
  | [], _ => []
  | y :: ys, l => ',' :: '\n' :: indentChars l ++ dumpChars y l ++ itemsRest ys l

/-- The rendering of the object entries after the first one. -/
def fieldsRest : List (String × Json) → Nat → List Char
  | [], _ => []
  | (k, v) :: gs, l =>
    ',' :: '\n' :: indentChars l ++ jsonQuote k ++ ':' :: ' ' :: dumpChars v l ++
      fieldsRest gs l

/-- Every character of the list is JSON whitespace. -/
def allWsL (w : List Char) : Prop := ∀ c ∈ w, jsonWs c = true

/-- The list does not start with a decimal digit. -/
def noDigitHead : List Char → Prop
  | [] => True
  | c :: _ => c.isDigit = false

theorem dumpItems_eq (xs : List Json) (x : Json) (l : Nat) :
    dumpItems (x :: xs) l = indentChars l ++ dumpChars x l ++ itemsRest xs l := by
  induction xs generalizing x with
  | nil => simp [dumpItems, itemsRest]
  | cons y ys ih =>
    show indentChars l ++ dumpChars x l ++ ',' :: '\n' :: dumpItems (y :: ys) l = _
    rw [ih y]
    simp [itemsRest]

theorem dumpFields_eq (gs : List (String × Json)) (k : String) (v : Json) (l : Nat) :
    dumpFields ((k, v) :: gs) l =
      indentChars l ++ jsonQuote k ++ ':' :: ' ' :: dumpChars v l ++ fieldsRest gs l := by
  induction gs generalizing k v with
  | nil => simp [dumpFields, fieldsRest]
  | cons g gs2 ih =>
    obtain ⟨k2, v2⟩ := g
    show indentChars l ++ jsonQuote k ++ ':' :: ' ' :: dumpChars v l ++
        ',' :: '\n' :: dumpFields ((k2, v2) :: gs2) l = _
    rw [ih k2 v2]
    simp [fieldsRest]

theorem skipWs_wsPre {w : List Char} (hw : allWsL w) (cs : List Char) :
    skipWs (w ++ cs) = skipWs cs := by
  induction w with
  | nil => rfl
  | cons c w2 ih =>
    have hc : jsonWs c = true := hw c (by simp)
    simp only [skipWs, List.cons_append, List.dropWhile_cons, hc, if_pos]
    exact ih (fun c hc2 => hw c (by simp [hc2]))

theorem skipWs_not_ws {c : Char} (hc : jsonWs c = false) (cs : List Char) :
    skipWs (c :: cs) = c :: cs := by
  simp [skipWs, List.dropWhile_cons, hc]

theorem indent_allWs (l : Nat) : allWsL (indentChars l) := by
  intro c hc
  rw [indentChars] at hc
  rw [List.eq_of_mem_replicate hc]
  decide

theorem allWs_nl_indent (l : Nat) : allWsL ('\n' :: indentChars l) := by
  intro c hc
  rcases List.mem_cons.mp hc with rfl | hc2
  · decide
  · exact indent_allWs l c hc2

theorem digitChar_toNat : ∀ d, d < 10 → (digitChar d).toNat = 48 + d := by decide

theorem digitChar_isDigit : ∀ d, d < 10 → (digitChar d).isDigit = true := by decide

theorem digitChar_ne_zero : ∀ d, d < 10 → 0 < d → digitChar d ≠ '0' := by decide

theorem natReprAux_zero (fuel : Nat) : natReprAux fuel 0 = [] := by
  cases fuel <;> rfl

theorem natReprAux_succ (fuel k : Nat) :
    natReprAux (fuel + 1) (k + 1) =
      natReprAux fuel ((k + 1) / 10) ++ [digitChar ((k + 1) % 10)] := rfl

/-- Shape of the digits of a positive natural: a nonzero leading digit
followed by digits. -/
theorem natReprAux_shape (fuel : Nat) :
    ∀ m, 0 < m → m ≤ fuel →
      ∃ c ds, natReprAux fuel m = c :: ds ∧ c.isDigit = true ∧ c ≠ '0' ∧
        ∀ x ∈ ds, x.isDigit = true := by
  induction fuel with
  | zero => intro m hm hle; omega
  | succ f ih =>
    intro m hm hle
    obtain ⟨k, rfl⟩ : ∃ k, m = k + 1 := ⟨m - 1, by omega⟩
    rw [natReprAux_succ]
    by_cases hq : (k + 1) / 10 = 0
    · have h10 : k + 1 < 10 := by omega
      have hmod : (k + 1) % 10 = k + 1 := Nat.mod_eq_of_lt h10
      rw [hq, natReprAux_zero]
      exact ⟨digitChar ((k + 1) % 10), [], rfl,
        digitChar_isDigit _ (by omega),
        by rw [hmod]; exact digitChar_ne_zero _ h10 (by omega),
        by simp⟩
    · have hqf : (k + 1) / 10 ≤ f := by
        have := Nat.div_lt_self (by omega : 0 < k + 1) (by omega : 1 < 10)
        omega
      obtain ⟨c, ds, heq, hdig, hnz, hall⟩ := ih ((k + 1) / 10) (by omega) hqf
      refine ⟨c, ds ++ [digitChar ((k + 1) % 10)], by rw [heq]; simp, hdig, hnz, ?_⟩
      intro x hx
      rcases List.mem_append.mp hx with hx2 | hx2
      · exact hall x hx2
      · rw [List.mem_singleton.mp hx2]
        exact digitChar_isDigit _ (by omega)

theorem digitsToNat_append_digit (A : List Char) (d : Nat) (hd : d < 10) :
    digitsToNat (A ++ [digitChar d]) = digitsToNat A * 10 + d := by
  simp [digitsToNat, List.foldl_append, digitChar_toNat d hd]

theorem digitsToNat_natReprAux (fuel : Nat) :
    ∀ m, m ≤ fuel → digitsToNat (natReprAux fuel m) = m := by
  induction fuel with
  | zero =>
    intro m hm
    have : m = 0 := by omega
    subst this
    rfl
  | succ f ih =>
    intro m hm
    rcases Nat.eq_zero_or_pos m with rfl | hp
    · rw [natReprAux_zero]; rfl
    · obtain ⟨k, rfl⟩ : ∃ k, m = k + 1 := ⟨m - 1, by omega⟩
      rw [natReprAux_succ]
      have hqf : (k + 1) / 10 ≤ f := by
        have := Nat.div_lt_self (by omega : 0 < k + 1) (by omega : 1 < 10)
        omega
      rw [digitsToNat_append_digit _ _ (Nat.mod_lt _ (by omega)), ih _ hqf]
      omega

theorem takeWhile_digits_append {A B : List Char} (hA : ∀ x ∈ A, x.isDigit = true)
    (hB : noDigitHead B) :
    (A ++ B).takeWhile Char.isDigit = A ∧ (A ++ B).dropWhile Char.isDigit = B := by
  induction A with
  | nil =>
    constructor
    · cases B with
      | nil => rfl
      | cons b bs =>
        have hb : b.isDigit = false := hB
        simp [List.takeWhile_cons, hb]
    · cases B with
      | nil => rfl
      | cons b bs =>
        have hb : b.isDigit = false := hB
        simp [List.dropWhile_cons, hb]
  | cons a as ih =>
    have ha : a.isDigit = true := hA a (by simp)
    have ih2 := ih (fun x hx => hA x (by simp [hx]))
    constructor
    · simp only [List.cons_append, List.takeWhile_cons, ha, if_pos]
      rw [ih2.1]
    · simp only [List.cons_append, List.dropWhile_cons, ha, if_pos]
      exact ih2.2

theorem parseUInt_repr (m : Nat) (rest : List Char) (hm : 0 < m)
    (hrest : noDigitHead rest) :
    parseUInt (natReprAux m m ++ rest) = some (m, rest) := by
  obtain ⟨c, ds, heq, hdig, hnz, hall⟩ := natReprAux_shape m m hm le_rfl
  rw [heq]
  show parseUInt (c :: (ds ++ rest)) = some (m, rest)
  rw [parseUInt, if_neg hnz, if_pos hdig]
  have htw := takeWhile_digits_append hall hrest
  rw [htw.1, htw.2, ← heq, digitsToNat_natReprAux m m le_rfl]

theorem digit_not_special {c : Char} (hc : c.isDigit = true) :
    c ≠ lbraceC ∧ c ≠ '[' ∧ c ≠ '"' ∧ c ≠ 't' ∧ c ≠ 'f' ∧ c ≠ 'n' ∧ c ≠ '-' := by
  refine ⟨?_, ?_, ?_, ?_, ?_, ?_, ?_⟩ <;>
    (intro h; rw [h] at hc; exact absurd hc (by decide))

theorem parseVal_num (f : Nat) (n : Int) (rest : List Char)
    (hrest : noDigitHead rest) :
    parseVal (f + 1) (intRepr n ++ rest) = some (.num n, rest) := by
  rcases lt_or_ge n 0 with hneg | hpos
  · have hm : 0 < n.natAbs := by omega
    rw [intRepr, if_pos hneg, natRepr, if_neg (by omega)]
    show parseVal (f + 1) ('-' :: (natReprAux n.natAbs n.natAbs ++ rest)) = _
    rw [show parseVal (f + 1) ('-' :: (natReprAux n.natAbs n.natAbs ++ rest)) =
        (parseInt ('-' :: (natReprAux n.natAbs n.natAbs ++ rest))).map
          (fun p => (Json.num p.1, p.2)) from rfl]
    rw [show parseInt ('-' :: (natReprAux n.natAbs n.natAbs ++ rest)) =
        (parseUInt (natReprAux n.natAbs n.natAbs ++ rest)).map
          (fun p => (-(p.1 : Int), p.2)) from rfl]
    rw [parseUInt_repr _ _ hm hrest]
    show some (Json.num (-(n.natAbs : Int)), rest) = some (Json.num n, rest)
    have hval : -((n.natAbs : Int)) = n := by omega
    rw [hval]
  · rcases Nat.eq_zero_or_pos n.natAbs with hz | hm
    · have hn0 : n = 0 := by omega
      subst hn0
      rw [intRepr, if_neg (by omega)]
      rfl
    · rw [intRepr, if_neg (by omega), natRepr, if_neg (by omega)]
      obtain ⟨c, ds, heq, hdig, hnz, hall⟩ := natReprAux_shape n.natAbs n.natAbs hm le_rfl
      rw [heq]
      have hne := digit_not_special hdig
      show parseVal (f + 1) (c :: (ds ++ rest)) = _
      simp only [parseVal]
      rw [if_neg hne.1, if_neg hne.2.1, if_neg hne.2.2.1, if_neg hne.2.2.2.1,
        if_neg hne.2.2.2.2.1, if_neg hne.2.2.2.2.2.1,
        if_pos (Or.inr hdig)]
      rw [parseInt, if_neg hne.2.2.2.2.2.2]
      rw [show c :: (ds ++ rest) = natReprAux n.natAbs n.natAbs ++ rest from by
        rw [heq]; rfl]
      rw [parseUInt_repr _ _ hm hrest]
      show some (Json.num ((n.natAbs : Nat) : Int), rest) = some (Json.num n, rest)
      have hval : ((n.natAbs : Int)) = n := by omega
      rw [hval]

theorem hexVal_digitChar : ∀ x, x < 16 → hexVal (Nat.digitChar x) = some x := by decide

theorem ofNatAux_toNat (c : Char) (h : c.toNat.isValidChar) :
    Char.ofNatAux c.toNat h = c := by
  cases c with
  | mk val valid =>
    unfold Char.ofNatAux
    congr 1


theorem charOfNat_toNat (c : Char) : Char.ofNat c.toNat = c := by
  have hv : c.toNat.isValidChar := c.valid
  unfold Char.ofNat
  rw [dif_pos hv]
  exact ofNatAux_toNat c hv

/-- Parsing the escape of any single character pushes that character. -/
theorem escape_step (c : Char) (acc tail : List Char) :
    parseStrBody acc (jsonEscapeChar c ++ tail) = parseStrBody (c :: acc) tail := by
  by_cases hq : c = '"'
  · subst hq; rfl
  by_cases hb : c = '\\'
  · subst hb; rfl
  by_cases hn : c = '\n'
  · subst hn; rfl
  by_cases ht : c = '\t'
  · subst ht; rfl
  by_cases hr : c = '\r'
  · subst hr; rfl
  by_cases h8 : c = Char.ofNat 8
  · subst h8
    rw [show jsonEscapeChar (Char.ofNat 8) = ['\\', 'b'] from by decide]
    rfl
  by_cases h12 : c = Char.ofNat 12
  · subst h12
    rw [show jsonEscapeChar (Char.ofNat 12) = ['\\', 'f'] from by decide]
    rfl
  by_cases h32 : c.toNat < 32
  · rw [jsonEscapeChar, if_neg hq, if_neg hb, if_neg hn, if_neg ht, if_neg hr,
      if_neg h8, if_neg h12, if_pos h32]
    have hd1 := hexVal_digitChar (c.toNat / 16) (by omega)
    have hd2 := hexVal_digitChar (c.toNat % 16) (Nat.mod_lt _ (by omega))
    have hh : hex4 '0' '0' (Nat.digitChar (c.toNat / 16))
        (Nat.digitChar (c.toNat % 16)) = some c.toNat := by
      rw [hex4]
      rw [show hexVal '0' = some 0 from rfl]
      rw [hd1, hd2]
      show some (((0 * 16 + 0) * 16 + c.toNat / 16) * 16 + c.toNat % 16) = _
      congr 1
      omega
    show parseUEsc acc
        ('0' :: '0' :: Nat.digitChar (c.toNat / 16) ::
          Nat.digitChar (c.toNat % 16) :: tail) = _
    rw [parseUEsc, hh]
    have h58 : c.toNat < 0xd800 := by omega
    dsimp only
    rw [if_pos h58, charOfNat_toNat]
  · rw [jsonEscapeChar, if_neg hq, if_neg hb, if_neg hn, if_neg ht, if_neg hr,
      if_neg h8, if_neg h12, if_neg h32]
    show parseStrBody acc (c :: tail) = _
    rw [parseStrBody, if_neg hq, if_neg hb, if_neg h32]

/-- Parsing the escaped body of a string literal up to the closing quote. -/
theorem parse_str_list (cs : List Char) : ∀ acc tail,
    parseStrBody acc (cs.flatMap jsonEscapeChar ++ '"' :: tail) =
      some (String.mk (acc.reverse ++ cs), tail) := by
  induction cs with
  | nil =>
    intro acc tail
    show parseStrBody acc ('"' :: tail) = _
    rw [parseStrBody, if_pos rfl]
    simp
  | cons c cs2 ih =>
    intro acc tail
    rw [List.flatMap_cons, List.append_assoc, escape_step, ih (c :: acc) tail]
    simp

/-- Parsing a rendered string literal. -/
theorem parse_quote (s : String) (tail : List Char) :
    parseStrBody [] (s.data.flatMap jsonEscapeChar ++ '"' :: tail) =
      some (s, tail) := by
  rw [parse_str_list]
  rfl

theorem digit_not_ws {c : Char} (hc : c.isDigit = true) :
    jsonWs c = false ∧ c ≠ ']' := by
  constructor
  · rcases Bool.eq_false_or_eq_true (jsonWs c) with h | h
    · exfalso
      simp only [jsonWs, decide_eq_true_eq] at h
      rcases h with rfl | rfl | rfl | rfl <;> exact absurd hc (by decide)
    · exact h
  · intro h
    rw [h] at hc
    exact absurd hc (by decide)

/-- The rendering of a value starts with a non-whitespace character that
is not `]`. -/
theorem dump_head (v : Json) (l : Nat) :
    ∃ c cs, dumpChars v l = c :: cs ∧ jsonWs c = false ∧ c ≠ ']' := by
  cases v with
  | null => exact ⟨'n', _, rfl, by decide, by decide⟩
  | bool b => cases b with
    | false => exact ⟨'f', _, rfl, by decide, by decide⟩
    | true => exact ⟨'t', _, rfl, by decide, by decide⟩
  | num n =>
    show ∃ c cs, intRepr n = c :: cs ∧ jsonWs c = false ∧ c ≠ ']' 
    by_cases hneg : n < 0
    · rw [intRepr, if_pos hneg]
      exact ⟨'-', _, rfl, by decide, by decide⟩
    · rw [intRepr, if_neg hneg]
      rcases Nat.eq_zero_or_pos n.natAbs with hz | hm
      · rw [natRepr, if_pos hz]
        exact ⟨'0', _, rfl, by decide, by decide⟩
      · rw [natRepr, if_neg (by omega)]
        obtain ⟨c, ds, heq, hdig, hnz, hall⟩ :=
          natReprAux_shape n.natAbs n.natAbs hm le_rfl
        exact ⟨c, ds, heq, (digit_not_ws hdig).1, (digit_not_ws hdig).2⟩
  | str s =>
    refine ⟨'"', s.data.flatMap jsonEscapeChar ++ ['"'], ?_, by decide, by decide⟩
    simp [dumpChars, jsonQuote]
  | arr xs => cases xs with
    | nil => exact ⟨'[', [']'], rfl, by decide, by decide⟩
    | cons x xs2 =>
      have hsh : dumpChars (.arr (x :: xs2)) l =
          '[' :: ('\n' :: dumpItems (x :: xs2) (l + 1) ++
            ('\n' :: indentChars l ++ [']'])) := by
        show ('[' :: '\n' :: dumpItems (x :: xs2) (l + 1)) ++
            ('\n' :: indentChars l) ++ [']'] = _
        simp
      exact ⟨'[', _, hsh, by decide, by decide⟩
  | obj fs => cases fs with
    | nil => exact ⟨lbraceC, [rbraceC], rfl, by decide, by decide⟩
    | cons g gs =>
      obtain ⟨k, v⟩ := g
      have hsh : dumpChars (.obj ((k, v) :: gs)) l =
          lbraceC :: ('\n' :: dumpFields ((k, v) :: gs) (l + 1) ++
            ('\n' :: indentChars l ++ [rbraceC])) := by
        show (lbraceC :: '\n' :: dumpFields ((k, v) :: gs) (l + 1)) ++
            ('\n' :: indentChars l) ++ [rbraceC] = _
        simp
      exact ⟨lbraceC, _, hsh, by decide, by decide⟩

theorem neededV_pos (v : Json) : 1 ≤ neededV v := by
  cases v <;> simp [neededV]

theorem keysFresh_cons {g : String × Json} {gs : List (String × Json)}
    (h : keysFresh (g :: gs) = true) :
    (∀ q ∈ gs, q.1 ≠ g.1) ∧ keysFresh gs = true := by
  simp only [keysFresh, Bool.and_eq_true, List.all_eq_true] at h
  exact ⟨fun q hq => by simpa using h.1 q hq, h.2⟩

theorem dictInsert_append (acc : List (String × Json)) (k : String) (v : Json)
    (h : ∀ p ∈ acc, p.1 ≠ k) : dictInsert acc k v = acc ++ [(k, v)] := by
  induction acc with
  | nil => rfl
  | cons p ps ih =>
    obtain ⟨k1, v1⟩ := p
    have hne : k1 ≠ k := h (k1, v1) (by simp)
    simp [dictInsert, hne, ih (fun q hq => h q (by simp [hq]))]

theorem roundtrip_main : ∀ fuel : Nat,
    (∀ v l rest, neededV v ≤ fuel → wfJson v = true → noDigitHead rest →
      parseVal fuel (dumpChars v l ++ rest) = some (v, rest)) ∧
    (∀ x xs l w acc rest, neededItems (x :: xs) ≤ fuel → allWsL w →
      wfJson x = true → wfItems xs = true →
      parseArrItems fuel
        (dumpChars x l ++ (itemsRest xs l ++ '\n' :: (w ++ ']' :: rest))) acc =
        some (.arr (acc ++ x :: xs), rest)) ∧
    (∀ k v gs l w acc rest, neededFields ((k, v) :: gs) ≤ fuel → allWsL w →
      wfJson v = true → wfFields gs = true → keysFresh ((k, v) :: gs) = true →
      (∀ p ∈ acc, ∀ q ∈ (k, v) :: gs, p.1 ≠ q.1) →
      parseObjFields fuel
        (jsonQuote k ++
          ':' :: ' ' :: (dumpChars v l ++
            (fieldsRest gs l ++ '\n' :: (w ++ rbraceC :: rest)))) acc =
        some (.obj (acc ++ (k, v) :: gs), rest)) := by
  intro fuel
  induction fuel with
  | zero =>
    refine ⟨?_, ?_, ?_⟩
    · intro v l rest hfuel
      have := neededV_pos v
      omega
    · intro x xs l w acc rest hfuel
      simp [neededItems] at hfuel
    · intro k v gs l w acc rest hfuel
      simp [neededFields] at hfuel
  | succ f ih =>
    refine ⟨?_, ?_, ?_⟩
    · -- parseVal on a rendered value
      intro v l rest hfuel hwf hnd
      cases v with
      | null => rfl
      | bool b => cases b <;> rfl
      | num n => exact parseVal_num f n rest hnd
      | str s =>
        show parseVal (f + 1)
          ((('"' :: s.data.flatMap jsonEscapeChar) ++ ['"']) ++ rest) = _
        rw [List.append_assoc, List.cons_append]
        rw [show parseVal (f + 1)
            ('"' :: (s.data.flatMap jsonEscapeChar ++ (['"'] ++ rest))) =
          (parseStrBody [] (s.data.flatMap jsonEscapeChar ++ (['"'] ++ rest))).map
            (fun p => (Json.str p.1, p.2)) from rfl]
        rw [List.singleton_append, parse_quote s rest]
        rfl
      | arr xs =>
        cases xs with
        | nil =>
          have hf1 : 1 ≤ f := by
            simp [neededV, neededItems] at hfuel
            omega
          obtain ⟨f2, rfl⟩ : ∃ f2, f = f2 + 1 := ⟨f - 1, by omega⟩
          rfl
        | cons x xs2 =>
          simp only [wfJson, wfItems, Bool.and_eq_true] at hwf
          have hfu : neededItems (x :: xs2) ≤ f := by
            simp only [neededV] at hfuel
            omega
          have hshape : dumpChars (.arr (x :: xs2)) l ++ rest =
              '[' :: (('\n' :: indentChars (l + 1)) ++
                (dumpChars x (l + 1) ++
                  (itemsRest xs2 (l + 1) ++ '\n' :: (indentChars l ++ ']' :: rest)))) := by
            show (('[' :: '\n' :: dumpItems (x :: xs2) (l + 1)) ++
              ('\n' :: indentChars l) ++ [']']) ++ rest = _
            rw [dumpItems_eq]
            simp
          rw [hshape]
          rw [show parseVal (f + 1) ('[' :: (('\n' :: indentChars (l + 1)) ++
              (dumpChars x (l + 1) ++
                (itemsRest xs2 (l + 1) ++ '\n' :: (indentChars l ++ ']' :: rest))))) =
            parseArrItems f (skipWs (('\n' :: indentChars (l + 1)) ++
              (dumpChars x (l + 1) ++
                (itemsRest xs2 (l + 1) ++ '\n' :: (indentChars l ++ ']' :: rest))))) []
            from rfl]
          rw [skipWs_wsPre (allWs_nl_indent (l + 1))]
          obtain ⟨c, cs1, hd, hws, hne⟩ := dump_head x (l + 1)
          rw [show skipWs (dumpChars x (l + 1) ++
              (itemsRest xs2 (l + 1) ++ '\n' :: (indentChars l ++ ']' :: rest))) =
            dumpChars x (l + 1) ++
              (itemsRest xs2 (l + 1) ++ '\n' :: (indentChars l ++ ']' :: rest)) from by
            rw [hd, List.cons_append]
            exact skipWs_not_ws hws _]
          rw [ih.2.1 x xs2 (l + 1) (indentChars l) [] rest hfu
            (indent_allWs l) hwf.1 hwf.2]
          simp
      | obj fs =>
        cases fs with
        | nil =>
          have hf1 : 1 ≤ f := by
            simp [neededV, neededFields] at hfuel
            omega
          obtain ⟨f2, rfl⟩ : ∃ f2, f = f2 + 1 := ⟨f - 1, by omega⟩
          rfl
        | cons g gs =>
          obtain ⟨k, v⟩ := g
          simp only [wfJson, wfFields, Bool.and_eq_true] at hwf
          have hfu : neededFields ((k, v) :: gs) ≤ f := by
            simp only [neededV] at hfuel
            omega
          have hshape : dumpChars (.obj ((k, v) :: gs)) l ++ rest =
              lbraceC :: (('\n' :: indentChars (l + 1)) ++
                (jsonQuote k ++
                  ':' :: ' ' :: (dumpChars v (l + 1) ++
                    (fieldsRest gs (l + 1) ++
                      '\n' :: (indentChars l ++ rbraceC :: rest))))) := by
            show ((lbraceC :: '\n' :: dumpFields ((k, v) :: gs) (l + 1)) ++
              ('\n' :: indentChars l) ++ [rbraceC]) ++ rest = _
            rw [dumpFields_eq]
            simp
          rw [hshape]
          rw [show parseVal (f + 1) (lbraceC :: (('\n' :: indentChars (l + 1)) ++
              (jsonQuote k ++
                ':' :: ' ' :: (dumpChars v (l + 1) ++
                  (fieldsRest gs (l + 1) ++
                    '\n' :: (indentChars l ++ rbraceC :: rest)))))) =
            parseObjFields f (skipWs (('\n' :: indentChars (l + 1)) ++
              (jsonQuote k ++
                ':' :: ' ' :: (dumpChars v (l + 1) ++
                  (fieldsRest gs (l + 1) ++
                    '\n' :: (indentChars l ++ rbraceC :: rest)))))) []
            from rfl]
          rw [skipWs_wsPre (allWs_nl_indent (l + 1))]
          rw [show skipWs (jsonQuote k ++
              ':' :: ' ' :: (dumpChars v (l + 1) ++
                (fieldsRest gs (l + 1) ++
                  '\n' :: (indentChars l ++ rbraceC :: rest)))) =
            jsonQuote k ++
              ':' :: ' ' :: (dumpChars v (l + 1) ++
                (fieldsRest gs (l + 1) ++
                  '\n' :: (indentChars l ++ rbraceC :: rest))) from by
            rw [show jsonQuote k ++
                ':' :: ' ' :: (dumpChars v (l + 1) ++
                  (fieldsRest gs (l + 1) ++
                    '\n' :: (indentChars l ++ rbraceC :: rest))) =
              '"' :: (k.data.flatMap jsonEscapeChar ++
                '"' :: ':' :: ' ' :: (dumpChars v (l + 1) ++
                  (fieldsRest gs (l + 1) ++
                    '\n' :: (indentChars l ++ rbraceC :: rest)))) from by
              simp [jsonQuote]]
            exact skipWs_not_ws (by decide) _]
          rw [ih.2.2 k v gs (l + 1) (indentChars l) [] rest hfu (indent_allWs l)
            hwf.2.1 hwf.2.2 hwf.1 (by simp)]
          simp
    · -- parseArrItems on rendered items
      intro x xs l w acc rest hfuel hw hwfx hwfxs
      have hfuel2 : 1 + max (neededV x) (neededItems xs) ≤ f + 1 := hfuel
      have hfx : neededV x ≤ f := by omega
      have hndR : noDigitHead (itemsRest xs l ++ '\n' :: (w ++ ']' :: rest)) := by
        cases xs with
        | nil => show ('\n').isDigit = false; decide
        | cons y ys => show (',').isDigit = false; decide
      obtain ⟨c, cs1, hd, hws, hne⟩ := dump_head x l
      have hh : (dumpChars x l ++ (itemsRest xs l ++ '\n' :: (w ++ ']' :: rest))).head? =
          some c := by
        rw [hd]; rfl
      rw [parseArrItems, hh]
      rw [if_neg (fun hcon => hne (Option.some.inj hcon.1))]
      rw [ih.1 x l _ hfx hwfx hndR]
      dsimp only
      have hwnl : allWsL ('\n' :: w) := by
        intro c2 hc2
        rcases List.mem_cons.mp hc2 with rfl | h2
        · decide
        · exact hw _ h2
      cases xs with
      | nil =>
        have hskip : skipWs (itemsRest ([] : List Json) l ++ '\n' :: (w ++ ']' :: rest)) =
            ']' :: rest := by
          show skipWs ('\n' :: (w ++ ']' :: rest)) = ']' :: rest
          rw [show '\n' :: (w ++ ']' :: rest) = ('\n' :: w) ++ ']' :: rest from by simp]
          rw [skipWs_wsPre hwnl]
          exact skipWs_not_ws (by decide) _
        rw [hskip]
        simp
      | cons y ys =>
        simp only [wfItems, Bool.and_eq_true] at hwfxs
        have hfy : neededItems (y :: ys) ≤ f := by omega
        have hskip : skipWs (itemsRest (y :: ys) l ++ '\n' :: (w ++ ']' :: rest)) =
            ',' :: ('\n' :: (indentChars l ++
              (dumpChars y l ++ (itemsRest ys l ++ '\n' :: (w ++ ']' :: rest))))) := by
          rw [show itemsRest (y :: ys) l ++ '\n' :: (w ++ ']' :: rest) =
            ',' :: ('\n' :: (indentChars l ++
              (dumpChars y l ++ (itemsRest ys l ++ '\n' :: (w ++ ']' :: rest))))) from by
            show (((',' :: '\n' :: indentChars l) ++ dumpChars y l) ++ itemsRest ys l) ++
              '\n' :: (w ++ ']' :: rest) = _
            simp]
          exact skipWs_not_ws (by decide) _
        rw [hskip]
        dsimp only
        rw [if_pos rfl]
        rw [show skipWs ('\n' :: (indentChars l ++
            (dumpChars y l ++ (itemsRest ys l ++ '\n' :: (w ++ ']' :: rest))))) =
          dumpChars y l ++ (itemsRest ys l ++ '\n' :: (w ++ ']' :: rest)) from by
          rw [show '\n' :: (indentChars l ++
              (dumpChars y l ++ (itemsRest ys l ++ '\n' :: (w ++ ']' :: rest)))) =
            ('\n' :: indentChars l) ++
              (dumpChars y l ++ (itemsRest ys l ++ '\n' :: (w ++ ']' :: rest))) from by simp]
          rw [skipWs_wsPre (allWs_nl_indent l)]
          obtain ⟨c2, cs2, hd2, hws2, hne2⟩ := dump_head y l
          rw [hd2, List.cons_append]
          exact skipWs_not_ws hws2 _]
        rw [ih.2.1 y ys l w (acc ++ [x]) rest hfy hw hwfxs.1 hwfxs.2]
        simp
    · -- parseObjFields on rendered entries
      intro k v gs l w acc rest hfuel hw hwfv hwfgs hkf haccf
      have hfuel2 : 1 + max (neededV v) (neededFields gs) ≤ f + 1 := hfuel
      have hfv : neededV v ≤ f := by omega
      have hfr1 : ∀ p ∈ acc, p.1 ≠ k := fun p hp => haccf p hp (k, v) (by simp)
      have hndR : noDigitHead (fieldsRest gs l ++ '\n' :: (w ++ rbraceC :: rest)) := by
        cases gs with
        | nil => show ('\n').isDigit = false; decide
        | cons g2 gs2 =>
          obtain ⟨k2, v2⟩ := g2
          show (',').isDigit = false; decide
      rw [show jsonQuote k ++
          ':' :: ' ' :: (dumpChars v l ++
            (fieldsRest gs l ++ '\n' :: (w ++ rbraceC :: rest))) =
        '"' :: (k.data.flatMap jsonEscapeChar ++
          '"' :: ':' :: ' ' :: (dumpChars v l ++
            (fieldsRest gs l ++ '\n' :: (w ++ rbraceC :: rest)))) from by
        simp [jsonQuote]]
      rw [parseObjFields]
      rw [if_neg (fun hcon => absurd hcon.1 (by decide)), if_pos rfl]
      rw [parse_quote k (':' :: ' ' :: (dumpChars v l ++
        (fieldsRest gs l ++ '\n' :: (w ++ rbraceC :: rest))))]
      dsimp only
      rw [skipWs_not_ws (by decide)]
      dsimp only
      rw [if_pos rfl]
      rw [show skipWs (' ' :: (dumpChars v l ++
          (fieldsRest gs l ++ '\n' :: (w ++ rbraceC :: rest)))) =
        skipWs (dumpChars v l ++
          (fieldsRest gs l ++ '\n' :: (w ++ rbraceC :: rest))) from rfl]
      obtain ⟨c0, cs0, hd0, hws0, hne0⟩ := dump_head v l
      rw [show skipWs (dumpChars v l ++
          (fieldsRest gs l ++ '\n' :: (w ++ rbraceC :: rest))) =
        dumpChars v l ++
          (fieldsRest gs l ++ '\n' :: (w ++ rbraceC :: rest)) from by
        rw [hd0, List.cons_append]
        exact skipWs_not_ws hws0 _]
      rw [ih.1 v l _ hfv hwfv hndR]
      dsimp only
      have hwnl : allWsL ('\n' :: w) := by
        intro c2 hc2
        rcases List.mem_cons.mp hc2 with rfl | h2
        · decide
        · exact hw _ h2
      cases gs with
      | nil =>
        have hskip : skipWs (fieldsRest ([] : List (String × Json)) l ++
            '\n' :: (w ++ rbraceC :: rest)) = rbraceC :: rest := by
          show skipWs ('\n' :: (w ++ rbraceC :: rest)) = rbraceC :: rest
          rw [show '\n' :: (w ++ rbraceC :: rest) = ('\n' :: w) ++ rbraceC :: rest from by
            simp]
          rw [skipWs_wsPre hwnl]
          exact skipWs_not_ws (by decide) _
        rw [hskip]
        dsimp only
        rw [if_neg (by decide), if_pos rfl, dictInsert_append acc k v hfr1]
      | cons g2 gs2 =>
        obtain ⟨k2, v2⟩ := g2
        simp only [wfFields, Bool.and_eq_true] at hwfgs
        have hkf2 := keysFresh_cons hkf
        have hfg : neededFields ((k2, v2) :: gs2) ≤ f := by omega
        have hskip : skipWs (fieldsRest ((k2, v2) :: gs2) l ++
            '\n' :: (w ++ rbraceC :: rest)) =
            ',' :: ('\n' :: (indentChars l ++
              (jsonQuote k2 ++ ':' :: ' ' :: (dumpChars v2 l ++
                (fieldsRest gs2 l ++ '\n' :: (w ++ rbraceC :: rest)))))) := by
          rw [show fieldsRest ((k2, v2) :: gs2) l ++ '\n' :: (w ++ rbraceC :: rest) =
            ',' :: ('\n' :: (indentChars l ++
              (jsonQuote k2 ++ ':' :: ' ' :: (dumpChars v2 l ++
                (fieldsRest gs2 l ++ '\n' :: (w ++ rbraceC :: rest)))))) from by
            show ((((',' :: '\n' :: indentChars l) ++ jsonQuote k2) ++
              (':' :: ' ' :: dumpChars v2 l)) ++ fieldsRest gs2 l) ++
                '\n' :: (w ++ rbraceC :: rest) = _
            simp]
          exact skipWs_not_ws (by decide) _
        rw [hskip]
        dsimp only
        rw [if_pos rfl]
        rw [show skipWs ('\n' :: (indentChars l ++
            (jsonQuote k2 ++ ':' :: ' ' :: (dumpChars v2 l ++
              (fieldsRest gs2 l ++ '\n' :: (w ++ rbraceC :: rest)))))) =
          '"' :: (k2.data.flatMap jsonEscapeChar ++
            '"' :: ':' :: ' ' :: (dumpChars v2 l ++
              (fieldsRest gs2 l ++ '\n' :: (w ++ rbraceC :: rest)))) from by
          rw [show '\n' :: (indentChars l ++
              (jsonQuote k2 ++ ':' :: ' ' :: (dumpChars v2 l ++
                (fieldsRest gs2 l ++ '\n' :: (w ++ rbraceC :: rest))))) =
            ('\n' :: indentChars l) ++
              (jsonQuote k2 ++ ':' :: ' ' :: (dumpChars v2 l ++
                (fieldsRest gs2 l ++ '\n' :: (w ++ rbraceC :: rest)))) from by simp]
          rw [skipWs_wsPre (allWs_nl_indent l)]
          rw [show jsonQuote k2 ++ ':' :: ' ' :: (dumpChars v2 l ++
              (fieldsRest gs2 l ++ '\n' :: (w ++ rbraceC :: rest))) =
            '"' :: (k2.data.flatMap jsonEscapeChar ++
              '"' :: ':' :: ' ' :: (dumpChars v2 l ++
                (fieldsRest gs2 l ++ '\n' :: (w ++ rbraceC :: rest)))) from by
            simp [jsonQuote]]
          exact skipWs_not_ws (by decide) _]
        dsimp only
        rw [if_pos rfl, dictInsert_append acc k v hfr1]
        have hfr2 : ∀ p ∈ acc ++ [(k, v)], ∀ q ∈ (k2, v2) :: gs2, p.1 ≠ q.1 := by
          intro p hp q hq
          rcases List.mem_append.mp hp with hp2 | hp2
          · exact haccf p hp2 q (List.mem_cons_of_mem _ hq)
          · rw [List.mem_singleton.mp hp2]
            exact Ne.symm (hkf2.1 q hq)
        rw [show '"' :: (k2.data.flatMap jsonEscapeChar ++
            '"' :: ':' :: ' ' :: (dumpChars v2 l ++
              (fieldsRest gs2 l ++ '\n' :: (w ++ rbraceC :: rest)))) =
          jsonQuote k2 ++ ':' :: ' ' :: (dumpChars v2 l ++
            (fieldsRest gs2 l ++ '\n' :: (w ++ rbraceC :: rest))) from by
          simp [jsonQuote]]
        rw [ih.2.2 k2 v2 gs2 l w (acc ++ [(k, v)]) rest hfg hw hwfgs.1 hwfgs.2
          hkf2.2 hfr2]
        simp

theorem json_sizeOf_pos (v : Json) : 1 ≤ sizeOf v := by
  cases v <;> simp

theorem jsonList_sizeOf_pos (xs : List Json) : 1 ≤ sizeOf xs := by
  cases xs <;> simp <;> omega

theorem fieldList_sizeOf_pos (gs : List (String × Json)) : 1 ≤ sizeOf gs := by
  cases gs <;> simp <;> omega

theorem dump_len_pos (v : Json) (l : Nat) : 1 ≤ (dumpChars v l).length := by
  obtain ⟨c, cs, hd, _, _⟩ := dump_head v l
  rw [hd]
  simp

theorem jsonQuote_len (k : String) : 2 ≤ (jsonQuote k).length := by
  show 2 ≤ ((('"' :: k.data.flatMap jsonEscapeChar) ++ ['"']).length)
  simp

/-- The decoder fuel bound: the rendering is long enough. -/
theorem needed_le_budget : ∀ n : Nat,
    (∀ v l, sizeOf v ≤ n → neededV v ≤ (dumpChars v l).length + 1) ∧
    (∀ x xs l, 1 ≤ l → sizeOf x + sizeOf xs ≤ n →
      neededItems (x :: xs) ≤ (dumpItems (x :: xs) l).length) ∧
    (∀ k v gs l, 1 ≤ l → sizeOf v + sizeOf gs ≤ n →
      neededFields ((k, v) :: gs) ≤ (dumpFields ((k, v) :: gs) l).length) := by
  intro n
  induction n with
  | zero =>
    refine ⟨?_, ?_, ?_⟩
    · intro v l hsz
      have := json_sizeOf_pos v
      omega
    · intro x xs l hl hsz
      have := json_sizeOf_pos x
      have := jsonList_sizeOf_pos xs
      omega
    · intro k v gs l hl hsz
      have := json_sizeOf_pos v
      have := fieldList_sizeOf_pos gs
      omega
  | succ n ih =>
    refine ⟨?_, ?_, ?_⟩
    · intro v l hsz
      cases v with
      | null => simp [neededV, dumpChars]
      | bool b => cases b <;> simp [neededV, dumpChars]
      | num m =>
        show 1 ≤ (dumpChars (.num m) l).length + 1
        omega
      | str s =>
        show 1 ≤ (dumpChars (.str s) l).length + 1
        omega
      | arr xs =>
        cases xs with
        | nil => simp [neededV, neededItems, dumpChars]
        | cons x xs2 =>
          simp only [Json.arr.sizeOf_spec, List.cons.sizeOf_spec] at hsz
          have hi := ih.2.1 x xs2 (l + 1) (by omega) (by omega)
          show 1 + neededItems (x :: xs2) ≤
            ((('[' :: '\n' :: dumpItems (x :: xs2) (l + 1)) ++
              ('\n' :: indentChars l) ++ [']']).length) + 1
          simp only [List.length_append, List.length_cons, List.length_singleton]
          omega
      | obj fs =>
        cases fs with
        | nil => simp [neededV, neededFields, dumpChars]
        | cons g gs =>
          obtain ⟨k, v⟩ := g
          simp only [Json.obj.sizeOf_spec, List.cons.sizeOf_spec,
            Prod.mk.sizeOf_spec] at hsz
          have hi := ih.2.2 k v gs (l + 1) (by omega) (by omega)
          show 1 + neededFields ((k, v) :: gs) ≤
            (((lbraceC :: '\n' :: dumpFields ((k, v) :: gs) (l + 1)) ++
              ('\n' :: indentChars l) ++ [rbraceC]).length) + 1
          simp only [List.length_append, List.length_cons, List.length_singleton]
          omega
    · intro x xs l hl hsz
      have hv := ih.1 x l (by
        have := jsonList_sizeOf_pos xs
        omega)
      have hd1 := dump_len_pos x l
      cases xs with
      | nil =>
        show 1 + max (neededV x) (neededItems []) ≤
          ((indentChars l ++ dumpChars x l).length)
        simp only [List.length_append, indentChars, List.length_replicate, neededItems]
        omega
      | cons y ys =>
        simp only [List.cons.sizeOf_spec] at hsz
        have hi := ih.2.1 y ys l hl (by omega)
        show 1 + max (neededV x) (neededItems (y :: ys)) ≤
          ((indentChars l ++ dumpChars x l ++
            ',' :: '\n' :: dumpItems (y :: ys) l).length)
        simp only [List.length_append, indentChars, List.length_replicate,
          List.length_cons]
        omega
    · intro k v gs l hl hsz
      have hv := ih.1 v l (by
        have := fieldList_sizeOf_pos gs
        omega)
      have hd1 := dump_len_pos v l
      have hq := jsonQuote_len k
      cases gs with
      | nil =>
        show 1 + max (neededV v) (neededFields []) ≤
          ((indentChars l ++ jsonQuote k ++ ':' :: ' ' :: dumpChars v l).length)
        simp only [List.length_append, indentChars, List.length_replicate,
          List.length_cons, neededFields]
        omega
      | cons g2 gs2 =>
        obtain ⟨k2, v2⟩ := g2
        simp only [List.cons.sizeOf_spec, Prod.mk.sizeOf_spec] at hsz
        have hi := ih.2.2 k2 v2 gs2 l hl (by omega)
        show 1 + max (neededV v) (neededFields ((k2, v2) :: gs2)) ≤
          ((indentChars l ++ jsonQuote k ++ ':' :: ' ' :: dumpChars v l ++
            ',' :: '\n' :: dumpFields ((k2, v2) :: gs2) l).length)
        simp only [List.length_append, indentChars, List.length_replicate,
          List.length_cons]
        omega

/-- C7: for every JSON-representable structured payload (a value whose
objects all have duplicate-free keys, `None` included), decoding the
formatter's textual rendering yields the original value. -/
theorem format_roundtrip (v : Json) (h : wfJson v = true) :
    jsonLoads (formatJson v) = some v := by
  by_cases hv : v = Json.null
  · subst hv; decide
  · rw [formatJson, if_neg hv]
    obtain ⟨c, cs, hd, hws, hne⟩ := dump_head v 0
    have hskip : skipWs (dumpChars v 0) = dumpChars v 0 := by
      rw [hd]
      exact skipWs_not_ws hws _
    have hfuel : neededV v ≤ (dumpChars v 0).length + 1 :=
      (needed_le_budget (sizeOf v)).1 v 0 le_rfl
    have hmain := (roundtrip_main ((dumpChars v 0).length + 1)).1 v 0 [] hfuel h trivial
    rw [List.append_nil] at hmain
    unfold jsonLoads
    rw [show (String.mk (dumpChars v 0)).data = dumpChars v 0 from rfl]
    rw [show (String.mk (dumpChars v 0)).length = (dumpChars v 0).length from rfl]
    rw [hskip, hmain]
    rfl

/-- Witness: the round-trip theorem applied to a concrete nested payload
with a negative number, escaped string characters, booleans and null. -/
theorem format_roundtrip_witness :
    wfJson (Json.obj [("a", Json.arr [Json.num 1, Json.num (-20),
      Json.str "x\n\"y\\", Json.bool false, Json.null]),
      ("b", Json.obj [("k", Json.str "")])]) = true ∧
    jsonLoads (formatJson (Json.obj [("a", Json.arr [Json.num 1, Json.num (-20),
      Json.str "x\n\"y\\", Json.bool false, Json.null]),
      ("b", Json.obj [("k", Json.str "")])])) =
      some (Json.obj [("a", Json.arr [Json.num 1, Json.num (-20),
        Json.str "x\n\"y\\", Json.bool false, Json.null]),
        ("b", Json.obj [("k", Json.str "")])]) :=
  ⟨by decide, format_roundtrip _ (by decide)⟩
